import Mathlib

/-!
# GC9A01 display-controller chip: embedding of `src/main.c`

The C program is a callback-driven emulation of a round TFT controller.  Its
state lives in one `chip_state_t`; every handler runs to completion.  The
embedding below is a state-passing translation:

* `uint8_t` / `uint16_t` / `uint32_t` values are natural numbers, with the
  wrap-around of each C operation written out (`u32`, `% 65536`, `% 256`);
* C `int` values (`x`, `y`, `pix_index` in `process_data`) are integers
  obtained from 32-bit words by `to_int`;
* `command_buf[16]` is a function on `Fin 16`; a store past its end is
  undefined behaviour in C and makes the handler return `none`;
* the three effects that leave the struct are kept as logs inside the state:
  `framebuffer` (calls of `buffer_write`), `warnings` (the `printf` of the
  unknown-command branch) and `executed` (calls of `execute_command`).
-/

namespace GC9A01

/-! ## Machine arithmetic -/

/-- Value of an expression of type `uint32_t`: reduction modulo `2^32`. -/
def u32 (z : Int) : Nat := (z % 4294967296).toNat

/-- Conversion of a 32-bit word to C `int` (two's complement). -/
def to_int (n : Nat) : Int :=
  if n % 4294967296 < 2147483648 then ((n % 4294967296 : Nat) : Int)
  else ((n % 4294967296 : Nat) : Int) - 4294967296

/-- Sum of two `uint32_t` values. -/
def uadd (a b : Nat) : Nat := u32 ((a : Int) + (b : Int))

/-- Difference of two `uint32_t` values. -/
def usub (a b : Nat) : Nat := u32 ((a : Int) - (b : Int))

/-- Product of two `uint32_t` values. -/
def umul (a b : Nat) : Nat := u32 ((a : Int) * (b : Int))

/-! ## Constants of the source -/

abbrev MODE_COMMAND : Nat := 0
abbrev MODE_DATA : Nat := 1

abbrev LOW : Nat := 0
abbrev HIGH : Nat := 1

abbrev CMD_NOP : Nat := 0x00
abbrev CMD_SWRESET : Nat := 0x01
abbrev CMD_SLPIN : Nat := 0x10
abbrev CMD_SLPOUT : Nat := 0x11
abbrev CMD_INVOFF : Nat := 0x20
abbrev CMD_INVON : Nat := 0x21
abbrev CMD_DISPOFF : Nat := 0x28
abbrev CMD_DISPON : Nat := 0x29
abbrev CMD_CASET : Nat := 0x2a
abbrev CMD_PASET : Nat := 0x2b
abbrev CMD_RAMWR : Nat := 0x2c
abbrev CMD_MADCTL : Nat := 0x36
abbrev CMD_COLMOD : Nat := 0x3a
abbrev CMD_FRMCTR1 : Nat := 0xb1
abbrev CMD_FRMCTR2 : Nat := 0xb2
abbrev CMD_FRMCTR3 : Nat := 0xb3
abbrev CMD_INVCTR : Nat := 0xb4
abbrev CMD_DISSET5 : Nat := 0xb6
abbrev CMD_PWCTR1 : Nat := 0xc0
abbrev CMD_PWCTR2 : Nat := 0xc1
abbrev CMD_PWCTR3 : Nat := 0xc2
abbrev CMD_PWCTR4 : Nat := 0xc3
abbrev CMD_PWCTR5 : Nat := 0xc4
abbrev CMD_VMCTR : Nat := 0xc5
abbrev CMD_GMCTRP1 : Nat := 0xe0
abbrev CMD_GMCTRN1 : Nat := 0xe1

abbrev SCAN_MY : Nat := 0x80
abbrev SCAN_MX : Nat := 0x40
abbrev SCAN_MV : Nat := 0x20

/-! ## Data model -/

/-- The three watched pins of `chip_pin_change`. -/
inductive Pin where
  | cs
  | dc
  | rst
deriving DecidableEq, Repr

/-- The fields of `chip_state_t` that the protocol core reads or writes, plus
the three effect logs.  The pin and SPI handles and the raw `spi_buffer` belong
to the transport and are not modelled.

* `framebuffer`: the calls `buffer_write(framebuffer, offset, &color, 4)` issued
  so far, oldest first, each as `(offset, color)`;
* `warnings`: the opcodes printed by the unknown-command branch, oldest first;
* `executed`: one entry per call of `execute_command`, oldest first, holding
  `command_code` and `command_buf` as they were at the call. -/
structure ChipState where
  framebuffer : List (Nat × Nat)
  width : Nat
  height : Nat
  radius : Nat
  mode : Nat
  command_code : Nat
  command_size : Nat
  command_index : Nat
  command_buf : Fin 16 → Nat
  ram_write : Bool
  active_column : Nat
  active_page : Nat
  column_start : Nat
  column_end : Nat
  page_start : Nat
  page_end : Nat
  scanning_direction : Nat
  warnings : List Nat
  executed : List (Nat × (Fin 16 → Nat))

/-! ## Operations -/

/-- `chip_reset` (main.c 87-95). -/
def chip_reset (chip : ChipState) : ChipState :=
  { chip with
    ram_write := false
    active_column := 0
    active_page := 0
    column_start := 0
    column_end := 239
    page_start := 0
    page_end := 239 }

/-- `chip_init` (main.c 97-130).  The struct comes from `malloc`, so every field
the function does not assign keeps whatever `junk` held; `width` and `height`
are the dimensions reported by `framebuffer_init`. -/
def chip_init (junk : ChipState) (width height : Nat) : ChipState :=
  chip_reset
    { junk with
      framebuffer := []
      width := width
      height := height
      radius := min width height / 2
      warnings := []
      executed := [] }

/-- `rgb565_to_rgba` (main.c 134-139). -/
def rgb565_to_rgba (value : Nat) : Nat :=
  0xff000000
    ||| ((value &&& 0x001f) <<< 19)
    ||| ((value &&& 0x07e0) <<< 5)
    ||| ((value &&& 0xf800) >>> 8)

/-- `chip_pin_change` (main.c 141-168), state part.  `spi_start` / `spi_stop`
act on the transport only; the buffer they flush reaches the core as a
separate `chip_spi_done` call. -/
def chip_pin_change (chip : ChipState) (pin : Pin) (value : Nat) : ChipState :=
  let chip :=
    if pin = Pin.cs then
      if value = LOW then { chip with command_size := 0, command_index := 0 } else chip
    else chip
  let chip :=
    if pin = Pin.dc ∧ chip.mode ≠ value then { chip with mode := value } else chip
  if pin = Pin.rst ∧ value = LOW then chip_reset chip else chip

/-- `command_args_size` (main.c 170-198). -/
def command_args_size (command_code : Nat) : Nat :=
  if command_code = CMD_MADCTL ∨ command_code = CMD_PWCTR2 ∨ command_code = CMD_INVCTR
      ∨ command_code = CMD_VMCTR ∨ command_code = CMD_COLMOD then 1
  else if command_code = CMD_PWCTR3 ∨ command_code = CMD_PWCTR4 ∨ command_code = CMD_PWCTR5
      ∨ command_code = CMD_DISSET5 then 2
  else if command_code = CMD_FRMCTR1 ∨ command_code = CMD_FRMCTR2
      ∨ command_code = CMD_PWCTR1 then 3
  else if command_code = CMD_CASET ∨ command_code = CMD_PASET then 4
  else if command_code = CMD_FRMCTR3 then 6
  else if command_code = CMD_GMCTRP1 ∨ command_code = CMD_GMCTRN1 then 16
  else 0

/-- `execute_command` (main.c 200-261).  The first line records the call. -/
def execute_command (chip0 : ChipState) : ChipState :=
  let chip : ChipState :=
    { chip0 with executed := chip0.executed ++ [(chip0.command_code, chip0.command_buf)] }
  let code := chip.command_code
  if code = CMD_NOP then chip
  else if code = CMD_SLPIN ∨ code = CMD_DISPOFF then chip
  else if code = CMD_SLPOUT ∨ code = CMD_DISPON then chip
  else if code = CMD_INVOFF ∨ code = CMD_INVON then chip
  else if code = CMD_RAMWR then { chip with ram_write := true }
  else if code = CMD_MADCTL then
    { chip with scanning_direction := chip.command_buf 0 &&& 0xe0 }
  else if code = CMD_CASET ∨ code = CMD_PASET then
    let arg0 := ((chip.command_buf 0 <<< 8) ||| chip.command_buf 1) % 65536
    let arg2 := ((chip.command_buf 2 <<< 8) ||| chip.command_buf 3) % 65536
    let set_page : Bool := decide (code = CMD_PASET)
    if (if chip.scanning_direction &&& SCAN_MV ≠ 0 then !set_page else set_page) = true then
      let chip : ChipState :=
        { chip with active_page := arg0, page_start := arg0, page_end := arg2 }
      if chip.scanning_direction &&& SCAN_MY ≠ 0 then
        { chip with
          active_page := u32 ((chip.active_page : Int) - 32)
          page_start := u32 ((chip.page_start : Int) - 32)
          page_end := u32 ((chip.page_end : Int) - 32) }
      else chip
    else
      { chip with active_column := arg0, column_start := arg0, column_end := arg2 }
  else if code = CMD_PWCTR1 ∨ code = CMD_SWRESET ∨ code = CMD_COLMOD ∨ code = CMD_VMCTR then chip
  else { chip with warnings := chip.warnings ++ [code] }

/-- Body of the loop of `process_command` (main.c 267-272) for one byte. -/
def process_command_byte (chip : ChipState) (b : Nat) : ChipState :=
  let chip : ChipState :=
    { chip with command_code := b, command_size := command_args_size b, command_index := 0 }
  if chip.command_size = 0 then execute_command chip else chip

/-- `process_command` (main.c 263-274). -/
def process_command (chip : ChipState) (buffer : List Nat) : ChipState :=
  buffer.foldl process_command_byte { chip with ram_write := false }

/-- Body of the loop of `process_command_args` (main.c 279-284) for one byte.
`none` is the store `command_buf[command_index]` with `command_index ≥ 16`. -/
def process_command_args_byte (chip : ChipState) (b : Nat) : Option ChipState :=
  if chip.command_index < chip.command_size then
    if h : chip.command_index < 16 then
      let chip : ChipState :=
        { chip with
          command_buf := Function.update chip.command_buf ⟨chip.command_index, h⟩ b
          command_index := (chip.command_index + 1) % 256 }
      if chip.command_size = chip.command_index then some (execute_command chip)
      else some chip
    else none
  else some chip

/-- `process_command_args` (main.c 276-286). -/
def process_command_args (chip : ChipState) (buffer : List Nat) : Option ChipState :=
  buffer.foldlM process_command_args_byte chip

/-- Value of `x` in `process_data` after main.c 293-301.  `x` starts as
`(int) active_column`; each conditional expression has type `uint32_t` (its
second operand is unsigned) and is converted back to `int` by the assignment. -/
def device_x (chip : ChipState) : Int :=
  let x : Int := to_int chip.active_column
  if chip.scanning_direction &&& SCAN_MV ≠ 0 then
    to_int (if chip.scanning_direction &&& SCAN_MX ≠ 0
      then usub (usub chip.width 1) (u32 x) else u32 x)
  else
    to_int (if chip.scanning_direction &&& SCAN_MY ≠ 0
      then usub (usub chip.width 1) (u32 x) else u32 x)

/-- Value of `y` in `process_data` after main.c 293-301. -/
def device_y (chip : ChipState) : Int :=
  let y : Int := to_int chip.active_page
  if chip.scanning_direction &&& SCAN_MV ≠ 0 then
    to_int (if chip.scanning_direction &&& SCAN_MY ≠ 0
      then usub (usub chip.height 1) (u32 y) else u32 y)
  else
    to_int (if chip.scanning_direction &&& SCAN_MX ≠ 0
      then usub (usub chip.height 1) (u32 y) else u32 y)

/-- The `int pix_index = y * chip->width + x` of main.c 304. -/
def pix_index (chip : ChipState) (x y : Int) : Int :=
  to_int (uadd (umul (u32 y) chip.width) (u32 x))

/-- The test of main.c 306-308, in `uint32_t` arithmetic. -/
def in_circle (chip : ChipState) (x y : Int) : Bool :=
  decide
    (uadd (umul (usub chip.radius (u32 y)) (usub chip.radius (u32 y)))
          (umul (usub chip.radius (u32 x)) (usub chip.radius (u32 x)))
      ≤ umul chip.radius chip.radius)

/-- Byte offset passed to `buffer_write` (main.c 309):
`pix_index * sizeof(color)` as a `uint32_t`. -/
def write_offset (chip : ChipState) (x y : Int) : Nat :=
  umul (u32 (pix_index chip x y)) 4

/-- Cursor advance of main.c 313-331. -/
def advance_cursor (chip : ChipState) : ChipState :=
  if chip.scanning_direction &&& SCAN_MV ≠ 0 then
    let chip : ChipState := { chip with active_page := uadd chip.active_page 1 }
    if chip.active_page > chip.page_end then
      let chip : ChipState :=
        { chip with
          active_page := chip.page_start
          active_column := uadd chip.active_column 1 }
      if chip.active_column > chip.column_end then
        { chip with active_column := chip.column_start }
      else chip
    else chip
  else
    let chip : ChipState := { chip with active_column := uadd chip.active_column 1 }
    if chip.active_column > chip.column_end then
      let chip : ChipState :=
        { chip with
          active_column := chip.column_start
          active_page := uadd chip.active_page 1 }
      if chip.active_page > chip.page_end then
        { chip with active_page := chip.page_start }
      else chip
    else chip

/-- Body of the loop of `process_data` (main.c 293-331) for one sample. -/
def process_data_sample (chip : ChipState) (sample : Nat) : ChipState :=
  let x := device_x chip
  let y := device_y chip
  let color := rgb565_to_rgba sample
  let chip : ChipState :=
    if in_circle chip x y = true then
      { chip with framebuffer := chip.framebuffer ++ [(write_offset chip x y, color)] }
    else chip
  advance_cursor chip

/-- `process_data` (main.c 288-333). -/
def process_data (chip : ChipState) (buffer16 : List Nat) : ChipState :=
  buffer16.foldl process_data_sample chip

/-- The view `(const uint16_t *)buffer` with `count / 2` elements used by
`chip_spi_done`: consecutive byte pairs, low byte first (the chip is built for
a little-endian target); a trailing odd byte is not part of any sample. -/
def samples16 : List Nat → List Nat
  | lo :: hi :: rest => (lo + 256 * hi) :: samples16 rest
  | _ => []

/-- `chip_spi_done` (main.c 335-356), state part; the closing `spi_start` acts
on the transport only. -/
def chip_spi_done (chip : ChipState) (buffer : List Nat) : Option ChipState :=
  if buffer.length = 0 then some chip
  else if chip.mode = MODE_DATA then
    if chip.ram_write = true then some (process_data chip (samples16 buffer))
    else process_command_args chip buffer
  else some (process_command chip buffer)

/-- Delivery of a sequence of buffers, one `chip_spi_done` call each. -/
def deliver (chip : ChipState) (buffers : List (List Nat)) : Option ChipState :=
  buffers.foldlM chip_spi_done chip

/-! ## Reference definitions and sample states -/

/-- Command Table as the specification words it (section 4.1): each row is an
opcode class with its argument count; an opcode in no row has count 0. -/
def command_table : List (List Nat × Nat) :=
  [ ([0x36, 0xC1, 0xB4, 0xC5, 0x3A], 1),
    ([0xC2, 0xC3, 0xC4, 0xB6], 2),
    ([0xB1, 0xB2, 0xC0], 3),
    ([0x2A, 0x2B], 4),
    ([0xB3], 6),
    ([0xE0, 0xE1], 16) ]

/-- Lookup in `command_table`. -/
def table_count (c : Nat) : Nat :=
  match command_table.find? (fun row => row.1.contains c) with
  | some row => row.2
  | none => 0

/-- A state with every field zero. -/
def blank : ChipState :=
  { framebuffer := []
    width := 0
    height := 0
    radius := 0
    mode := MODE_COMMAND
    command_code := 0
    command_size := 0
    command_index := 0
    command_buf := fun _ => 0
    ram_write := false
    active_column := 0
    active_page := 0
    column_start := 0
    column_end := 0
    page_start := 0
    page_end := 0
    scanning_direction := 0
    warnings := []
    executed := [] }

/-- The 240x240 panel right after `chip_init`. -/
def panel240 : ChipState := chip_init blank 240 240

/-- A state about to execute column-address-set `(0x00, 0x00, 0x00, 0xEF)`. -/
def caset_full_width : ChipState :=
  { panel240 with
    command_code := CMD_CASET
    command_size := 4
    command_index := 4
    command_buf := fun i => if i = 3 then 0xEF else 0 }

/-- The buffer `buf` after the bytes `bs` have been stored from index `k` on. -/
def store_args (buf : Fin 16 → Nat) (k : Nat) (bs : List Nat) : Fin 16 → Nat :=
  fun i => if k ≤ i.val ∧ i.val < k + bs.length then bs.getD (i.val - k) 0 else buf i

/-- Fields that `process_data` never writes. -/
def data_frame (a b : ChipState) : Prop :=
  a.mode = b.mode ∧ a.command_code = b.command_code ∧ a.command_size = b.command_size ∧
  a.command_index = b.command_index ∧ a.command_buf = b.command_buf ∧
  a.ram_write = b.ram_write ∧ a.executed = b.executed ∧ a.warnings = b.warnings ∧
  a.width = b.width ∧ a.height = b.height ∧ a.radius = b.radius ∧
  a.scanning_direction = b.scanning_direction ∧
  a.column_start = b.column_start ∧ a.column_end = b.column_end ∧
  a.page_start = b.page_start ∧ a.page_end = b.page_end

/-- One orientation-control or window command with its argument bytes. -/
inductive WindowCommand where
  | madctl (b0 : Nat)
  | caset (b0 b1 b2 b3 : Nat)
  | paset (b0 b1 b2 b3 : Nat)
deriving DecidableEq, Repr

/-- Opcode byte of a command. -/
def WindowCommand.opcode : WindowCommand → Nat
  | .madctl _ => CMD_MADCTL
  | .caset _ _ _ _ => CMD_CASET
  | .paset _ _ _ _ => CMD_PASET

/-- Argument bytes of a command, in wire order. -/
def WindowCommand.args : WindowCommand → List Nat
  | .madctl b0 => [b0]
  | .caset b0 b1 b2 b3 => [b0, b1, b2, b3]
  | .paset b0 b1 b2 b3 => [b0, b1, b2, b3]

/-- Issuing one command through the handlers: the data/command line goes low,
the opcode arrives in one buffer, the line goes high, the argument bytes arrive
in one buffer. -/
def issue (chip : ChipState) (cmd : WindowCommand) : Option ChipState :=
  (chip_spi_done (chip_pin_change chip Pin.dc LOW) [cmd.opcode]).bind
    (fun s => chip_spi_done (chip_pin_change s Pin.dc HIGH) cmd.args)

/-- Issuing a sequence of commands, first to last. -/
def issue_all (chip : ChipState) (cmds : List WindowCommand) : Option ChipState :=
  cmds.foldlM issue chip

/-- Addressing Window state together with the orientation. -/
structure Window where
  column_start : Nat
  column_end : Nat
  page_start : Nat
  page_end : Nat
  active_column : Nat
  active_page : Nat
  scanning_direction : Nat
deriving DecidableEq, Repr

/-- The Addressing Window and orientation fields of a chip state. -/
def ChipState.window (s : ChipState) : Window :=
  { column_start := s.column_start
    column_end := s.column_end
    page_start := s.page_start
    page_end := s.page_end
    active_column := s.active_column
    active_page := s.active_page
    scanning_direction := s.scanning_direction }

/-- Effect of the `CMD_CASET` / `CMD_PASET` case of `execute_command` on the
window fields. -/
def set_axis (w : Window) (set_page : Bool) (b0 b1 b2 b3 : Nat) : Window :=
  let arg0 := ((b0 <<< 8) ||| b1) % 65536
  let arg2 := ((b2 <<< 8) ||| b3) % 65536
  if (if w.scanning_direction &&& SCAN_MV ≠ 0 then !set_page else set_page) = true then
    if w.scanning_direction &&& SCAN_MY ≠ 0 then
      { w with
        active_page := u32 ((arg0 : Int) - 32)
        page_start := u32 ((arg0 : Int) - 32)
        page_end := u32 ((arg2 : Int) - 32) }
    else { w with active_page := arg0, page_start := arg0, page_end := arg2 }
  else { w with active_column := arg0, column_start := arg0, column_end := arg2 }

/-- Effect of one issued command on the window fields. -/
def window_step (w : Window) : WindowCommand → Window
  | .madctl b0 => { w with scanning_direction := b0 &&& 0xe0 }
  | .caset b0 b1 b2 b3 => set_axis w false b0 b1 b2 b3
  | .paset b0 b1 b2 b3 => set_axis w true b0 b1 b2 b3

/-- The window `w` with the orientation of `e` and, where the flag is set, the
column window (`tc`) or page window (`tp`) of `e`. -/
def merge (tc tp : Bool) (e w : Window) : Window :=
  { column_start := if tc = true then e.column_start else w.column_start
    column_end := if tc = true then e.column_end else w.column_end
    active_column := if tc = true then e.active_column else w.active_column
    page_start := if tp = true then e.page_start else w.page_start
    page_end := if tp = true then e.page_end else w.page_end
    active_page := if tp = true then e.active_page else w.active_page
    scanning_direction := e.scanning_direction }

/-- A 320x240 panel right after `chip_init`. -/
def panel320 : ChipState := chip_init blank 320 240

/-- The 240x240 panel in data mode after column-address-set and its first two
argument bytes `0x00, 0x10`. -/
def partial_caset : ChipState :=
  { panel240 with
    mode := MODE_DATA
    command_code := CMD_CASET
    command_size := 4
    command_index := 2
    command_buf := fun i => if i = 1 then 0x10 else 0 }

/-- The state `s` with the two logs that are not fields of `chip_state_t`
(`warnings`, `executed`) taken from `t`. -/
def with_logs_of (s t : ChipState) : ChipState :=
  { s with warnings := t.warnings, executed := t.executed }

/-- The cursor lies inside the window on both axes. -/
def cursor_in_window (s : ChipState) : Prop :=
  s.column_start ≤ s.active_column ∧ s.active_column ≤ s.column_end ∧
  s.page_start ≤ s.active_page ∧ s.active_page ≤ s.page_end

/-- Relation between an axis cursor before (`old`) and after (`new`) one
sample: unchanged, incremented inside the window, or reloaded with `start`
when the increment would pass `stop`. -/
def axis_step (start stop old new : Nat) : Prop :=
  new = old ∨ (old + 1 ≤ stop ∧ new = old + 1) ∨ (stop < old + 1 ∧ new = start)

/-- The data-model invariant `command_index ≤ command_size ≤ 16`. -/
def command_invariant (s : ChipState) : Prop :=
  s.command_index ≤ s.command_size ∧ s.command_size ≤ 16

/-- Window commands, then memory-write, then one data-mode buffer, all through
the handlers, starting from the 240x240 panel after `chip_init`. -/
def write_after (cmds : List WindowCommand) (data : List Nat) : Option ChipState :=
  (issue_all panel240 cmds).bind (fun s =>
    (chip_spi_done (chip_pin_change s Pin.dc LOW) [CMD_RAMWR]).bind (fun s1 =>
      chip_spi_done (chip_pin_change s1 Pin.dc HIGH) data))

/-- The 240x240 panel with orientation byte 0x80, the column window reduced to
column 0 and the page window reduced to page `2^32 - 1`. -/
def edge_page : ChipState :=
  { panel240 with
    scanning_direction := 0x80
    column_start := 0
    column_end := 0
    active_column := 0
    page_start := 4294967295
    page_end := 4294967295
    active_page := 4294967295 }

/-- The 240x240 panel with orientation byte 0x80, the column window reduced to
column 0 and a page window with `page_start = 2^32 - 1` above `page_end = 0`. -/
def inverted_page : ChipState :=
  { panel240 with
    scanning_direction := 0x80
    column_start := 0
    column_end := 0
    active_column := 0
    page_start := 4294967295
    page_end := 0
    active_page := 4294967295 }

/-- The 240x240 panel with a column window whose start 5 is above its end 3. -/
def inverted_column : ChipState :=
  { panel240 with column_start := 5, column_end := 3, active_column := 5 }

/-- The 240x240 panel about to execute orientation-control. -/
def madctl_pending : ChipState :=
  { panel240 with command_code := CMD_MADCTL, command_size := 1, command_index := 1 }

theorem and_shifted_mask (v m k : Nat) : v &&& (m <<< k) = ((v >>> k) &&& m) <<< k := by
  apply Nat.eq_of_testBit_eq
  intro i
  simp only [Nat.testBit_and, Nat.testBit_shiftLeft, Nat.testBit_shiftRight]
  by_cases h : i ≥ k
  · simp [h, Nat.add_sub_cancel' h]
  · simp [h]

theorem blue_field (v : Nat) : v &&& 0x001f = v % 32 :=
  Nat.and_pow_two_sub_one_eq_mod v 5

theorem green_field (v : Nat) : v &&& 0x07e0 = (v / 32 % 64) * 32 := by
  have h := and_shifted_mask v 0x3f 5
  have e : (0x3f : Nat) <<< 5 = 0x07e0 := by decide
  rw [e] at h
  rw [h, Nat.shiftLeft_eq, Nat.shiftRight_eq_div_pow]
  have := Nat.and_pow_two_sub_one_eq_mod (v / 2 ^ 5) 6
  norm_num at this ⊢
  exact this

theorem red_field (v : Nat) (hv : v < 65536) : v &&& 0xf800 = (v / 2048) * 2048 := by
  have h := and_shifted_mask v 0x1f 11
  have e : (0x1f : Nat) <<< 11 = 0xf800 := by decide
  rw [e] at h
  rw [h, Nat.shiftLeft_eq, Nat.shiftRight_eq_div_pow]
  have := Nat.and_pow_two_sub_one_eq_mod (v / 2 ^ 11) 5
  norm_num at this ⊢
  rw [this]
  omega

theorem rgba_value (v : Nat) (hv : v < 65536) :
    rgb565_to_rgba v
      = 0xff000000 + (v % 32) * 8 * 65536 + (v / 32 % 64) * 4 * 256 + (v / 2048) * 8 := by
  unfold rgb565_to_rgba
  rw [blue_field, green_field, red_field v hv]
  simp only [Nat.shiftLeft_eq, Nat.shiftRight_eq_div_pow]
  have hr : v / 2048 * 2048 / 2 ^ 8 = v / 2048 * 8 := by omega
  rw [hr]
  have h1 := Nat.mul_add_lt_is_or (i := 24) (b := v % 32 * 2 ^ 19) (by omega) 255
  have h2 := Nat.mul_add_lt_is_or (i := 16) (b := v / 32 % 64 * 32 * 2 ^ 5) (by omega)
    (255 * 256 + v % 32 * 8)
  have h3 := Nat.mul_add_lt_is_or (i := 8) (b := v / 2048 * 8) (by omega)
    ((255 * 256 + v % 32 * 8) * 256 + v / 32 % 64 * 4)
  norm_num at h1 h2 h3 ⊢
  rw [← h1]
  have e2 : 4278190080 + v % 32 * 524288 = 65536 * (65280 + v % 32 * 8) := by omega
  rw [e2, ← h2]
  have e3 : 65536 * (65280 + v % 32 * 8) + v / 32 % 64 * 32 * 32
      = 256 * ((65280 + v % 32 * 8) * 256 + v / 32 % 64 * 4) := by omega
  rw [e3, ← h3]
  omega

theorem be16 (hi lo : Nat) (hhi : hi < 256) (hlo : lo < 256) :
    ((hi <<< 8) ||| lo) % 65536 = hi * 256 + lo := by
  have h := Nat.mul_add_lt_is_or (i := 8) (b := lo) (by simpa using hlo) hi
  rw [Nat.shiftLeft_eq, Nat.mul_comm hi (2 ^ 8), ← h]
  norm_num
  omega

/-! ## Frame lemmas of the dispatcher -/

theorem execute_command_command_code (s : ChipState) :
    (execute_command s).command_code = s.command_code := by
  simp only [execute_command, apply_ite ChipState.command_code, ite_self]

theorem execute_command_command_size (s : ChipState) :
    (execute_command s).command_size = s.command_size := by
  simp only [execute_command, apply_ite ChipState.command_size, ite_self]

theorem execute_command_command_index (s : ChipState) :
    (execute_command s).command_index = s.command_index := by
  simp only [execute_command, apply_ite ChipState.command_index, ite_self]

theorem execute_command_command_buf (s : ChipState) :
    (execute_command s).command_buf = s.command_buf := by
  simp only [execute_command, apply_ite ChipState.command_buf, ite_self]

theorem execute_command_mode (s : ChipState) : (execute_command s).mode = s.mode := by
  simp only [execute_command, apply_ite ChipState.mode, ite_self]

theorem execute_command_framebuffer (s : ChipState) :
    (execute_command s).framebuffer = s.framebuffer := by
  simp only [execute_command, apply_ite ChipState.framebuffer, ite_self]

theorem execute_command_executed (s : ChipState) :
    (execute_command s).executed = s.executed ++ [(s.command_code, s.command_buf)] := by
  simp only [execute_command, apply_ite ChipState.executed, ite_self]

theorem execute_command_ram_write (s : ChipState) :
    (execute_command s).ram_write = (s.ram_write || decide (s.command_code = CMD_RAMWR)) := by
  simp only [execute_command, apply_ite ChipState.ram_write, ite_self]
  by_cases h : s.command_code = CMD_RAMWR
  · simp [h]
  · simp [h]

theorem command_args_size_ramwr : command_args_size CMD_RAMWR = 0 := by decide

theorem command_args_size_le (c : Nat) : command_args_size c ≤ 16 := by
  unfold command_args_size
  split_ifs <;> decide

theorem process_command_byte_ram_write (s : ChipState) (b : Nat) :
    (process_command_byte s b).ram_write = (s.ram_write || decide (b = CMD_RAMWR)) := by
  unfold process_command_byte
  simp only []
  split_ifs with h
  · rw [execute_command_ram_write]
  · have hb : b ≠ CMD_RAMWR := by
      intro e
      exact h (by rw [e]; exact command_args_size_ramwr)
    simp [hb]

theorem foldl_process_command_byte_ram_write (buffer : List Nat) (s : ChipState) :
    (buffer.foldl process_command_byte s).ram_write
      = (s.ram_write || decide (CMD_RAMWR ∈ buffer)) := by
  induction buffer generalizing s with
  | nil => simp
  | cons b rest ih =>
    rw [List.foldl_cons, ih, process_command_byte_ram_write]
    by_cases hb : b = CMD_RAMWR
    · simp [hb]
    · have hb2 : ¬ CMD_RAMWR = b := fun e => hb e.symm
      simp [hb, hb2]

theorem samples16_length : ∀ buffer : List Nat, (samples16 buffer).length = buffer.length / 2
  | [] => rfl
  | [_] => by simp [samples16]
  | _ :: _ :: rest => by
    simp only [samples16, List.length_cons, samples16_length rest]
    omega

/-! ## Argument accumulation -/

theorem store_args_nil (buf : Fin 16 → Nat) (k : Nat) : store_args buf k [] = buf := by
  funext i
  simp [store_args]

theorem store_args_cons (buf : Fin 16 → Nat) (k : Nat) (h : k < 16) (b : Nat) (rest : List Nat) :
    store_args (Function.update buf ⟨k, h⟩ b) (k + 1) rest = store_args buf k (b :: rest) := by
  funext i
  unfold store_args
  by_cases h1 : k + 1 ≤ i.val ∧ i.val < k + 1 + rest.length
  · have h2 : k ≤ i.val ∧ i.val < k + (b :: rest).length := by
      simp only [List.length_cons]; omega
    rw [if_pos h1, if_pos h2]
    have e : i.val - k = (i.val - (k + 1)) + 1 := by omega
    rw [e, List.getD_cons_succ]
  · rw [if_neg h1]
    by_cases h3 : i.val = k
    · have h2 : k ≤ i.val ∧ i.val < k + (b :: rest).length := by
        simp only [List.length_cons]; omega
      have hi : i = ⟨k, h⟩ := Fin.ext h3
      rw [if_pos h2, hi]
      simp
    · have h2 : ¬ (k ≤ i.val ∧ i.val < k + (b :: rest).length) := by
        simp only [List.length_cons]; omega
      have hi : i ≠ ⟨k, h⟩ := fun e => h3 (by rw [e])
      rw [if_neg h2, Function.update_noteq hi]

theorem process_command_args_cons (s : ChipState) (b : Nat) (rest : List Nat) :
    process_command_args s (b :: rest)
      = (process_command_args_byte s b).bind (fun s1 => process_command_args s1 rest) := by
  simp [process_command_args, List.foldlM_cons]

theorem args_accumulate : ∀ (bs : List Nat) (s : ChipState), s.command_size ≤ 16 →
    s.command_index + bs.length < s.command_size →
    process_command_args s bs
      = some { s with
          command_buf := store_args s.command_buf s.command_index bs
          command_index := s.command_index + bs.length } := by
  intro bs
  induction bs with
  | nil =>
    intro s _ _
    simp [process_command_args, store_args_nil]
  | cons b rest ih =>
    intro s h16 hlt
    simp only [List.length_cons] at hlt
    have hidx : s.command_index < s.command_size := by omega
    have h16i : s.command_index < 16 := by omega
    have hmod : (s.command_index + 1) % 256 = s.command_index + 1 := by omega
    have hne : ¬ s.command_size = s.command_index + 1 := by omega
    rw [process_command_args_cons]
    simp only [process_command_args_byte, hidx, h16i, hmod, hne, if_true, dite_true, if_false,
      Option.bind]
    rw [ih _ (by simpa using h16) (by simp only []; omega)]
    simp only [store_args_cons, List.length_cons]
    congr 2
    omega

theorem args_done : ∀ (bs : List Nat) (s : ChipState), s.command_size ≤ s.command_index →
    process_command_args s bs = some s := by
  intro bs
  induction bs with
  | nil => intro s _; simp [process_command_args]
  | cons b rest ih =>
    intro s h
    have hidx : ¬ s.command_index < s.command_size := by omega
    rw [process_command_args_cons]
    simp only [process_command_args_byte, hidx, if_false, Option.bind]
    exact ih s h

theorem args_dispatch : ∀ (bs : List Nat) (s : ChipState), s.command_size ≤ 16 →
    bs ≠ [] → s.command_index + bs.length = s.command_size →
    process_command_args s bs
      = some (execute_command { s with
          command_buf := store_args s.command_buf s.command_index bs
          command_index := s.command_size }) := by
  intro bs
  induction bs with
  | nil => intro s _ h; exact absurd rfl h
  | cons b rest ih =>
    intro s h16 _ hlen
    simp only [List.length_cons] at hlen
    have hidx : s.command_index < s.command_size := by omega
    have h16i : s.command_index < 16 := by omega
    have hmod : (s.command_index + 1) % 256 = s.command_index + 1 := by omega
    rw [process_command_args_cons]
    by_cases hr : rest = []
    · subst hr
      have he : s.command_size = s.command_index + 1 := by simpa using hlen.symm
      simp only [process_command_args_byte, hidx, h16i, hmod, he, if_true, dite_true,
        Option.bind]
      simp only [process_command_args, List.foldlM_nil, pure]
      rw [← store_args_cons _ _ h16i, store_args_nil]
      simp
    · have hne : ¬ s.command_size = s.command_index + 1 := by
        have : 0 < rest.length := List.length_pos.mpr hr
        omega
      simp only [process_command_args_byte, hidx, h16i, hmod, hne, if_true, dite_true, if_false,
        Option.bind]
      rw [ih _ (by simpa using h16) hr (by simp only []; omega)]
      simp only [store_args_cons]

theorem process_command_args_append (s : ChipState) (xs ys : List Nat) :
    process_command_args s (xs ++ ys)
      = (process_command_args s xs).bind (fun s1 => process_command_args s1 ys) := by
  simp [process_command_args, List.foldlM_append]

/-- Closed form of `process_command_args` on a state that still expects
argument bytes. -/
theorem args_expected (bs : List Nat) (s : ChipState) (h16 : s.command_size ≤ 16)
    (hidx : s.command_index < s.command_size) :
    process_command_args s bs
      = some (if s.command_index + bs.length < s.command_size then
          { s with
            command_buf := store_args s.command_buf s.command_index bs
            command_index := s.command_index + bs.length }
        else
          execute_command { s with
            command_buf := store_args s.command_buf s.command_index
              (bs.take (s.command_size - s.command_index))
            command_index := s.command_size }) := by
  by_cases hlt : s.command_index + bs.length < s.command_size
  · rw [if_pos hlt]
    exact args_accumulate bs s h16 hlt
  · rw [if_neg hlt]
    have hsplit := List.take_append_drop (s.command_size - s.command_index) bs
    have hlen : (bs.take (s.command_size - s.command_index)).length
        = s.command_size - s.command_index := by
      rw [List.length_take]; omega
    have hne : bs.take (s.command_size - s.command_index) ≠ [] := by
      intro e
      rw [e] at hlen
      simp at hlen
      omega
    conv_lhs => rw [← hsplit]
    rw [process_command_args_append, args_dispatch _ s h16 hne (by rw [hlen]; omega)]
    simp only [Option.bind]
    apply args_done
    rw [execute_command_command_size, execute_command_command_index]

theorem process_command_args_byte_frame (s s1 : ChipState) (b : Nat)
    (h : process_command_args_byte s b = some s1) (hc : s.command_code ≠ CMD_RAMWR) :
    s1.mode = s.mode ∧ s1.command_code = s.command_code ∧ s1.ram_write = s.ram_write := by
  unfold process_command_args_byte at h
  by_cases h1 : s.command_index < s.command_size
  · by_cases h2 : s.command_index < 16
    · by_cases h3 : s.command_size = (s.command_index + 1) % 256
      · simp only [h1, h2, if_true, dite_true] at h
        rw [if_pos h3] at h
        simp only [Option.some.injEq] at h
        subst h
        simp [execute_command_mode, execute_command_command_code, execute_command_ram_write, hc]
      · simp only [h1, h2, if_true, dite_true] at h
        rw [if_neg h3] at h
        simp only [Option.some.injEq] at h
        subst h
        simp
    · simp [h1, h2] at h
  · simp only [h1, if_false, Option.some.injEq] at h
    subst h
    simp

theorem process_command_args_frame : ∀ (bs : List Nat) (s s1 : ChipState),
    process_command_args s bs = some s1 → s.command_code ≠ CMD_RAMWR →
    s1.mode = s.mode ∧ s1.command_code = s.command_code ∧ s1.ram_write = s.ram_write := by
  intro bs
  induction bs with
  | nil =>
    intro s s1 h _
    simp [process_command_args] at h
    subst h
    simp
  | cons b rest ih =>
    intro s s1 h hc
    rw [process_command_args_cons] at h
    cases hb : process_command_args_byte s b with
    | none => rw [hb] at h; simp at h
    | some s2 =>
      rw [hb] at h
      simp only [Option.bind] at h
      obtain ⟨m2, c2, r2⟩ := process_command_args_byte_frame s s2 b hb hc
      obtain ⟨m1, c1, r1⟩ := ih s2 s1 h (by rw [c2]; exact hc)
      exact ⟨m1.trans m2, c1.trans c2, r1.trans r2⟩

theorem deliver_cons (s : ChipState) (b : List Nat) (rest : List (List Nat)) :
    deliver s (b :: rest) = (chip_spi_done s b).bind (fun s1 => deliver s1 rest) := by
  simp [deliver, List.foldlM_cons]

/-- In data mode with the latch clear, a sequence of buffers is handled as the
concatenation of their bytes by `process_command_args`. -/
theorem deliver_eq_args : ∀ (bufs : List (List Nat)) (s : ChipState),
    s.mode = MODE_DATA → s.ram_write = false → s.command_code ≠ CMD_RAMWR →
    deliver s bufs = process_command_args s bufs.flatten := by
  intro bufs
  induction bufs with
  | nil => intro s _ _ _; simp [deliver, process_command_args]
  | cons b rest ih =>
    intro s hm hr hc
    have hdone : chip_spi_done s b = process_command_args s b := by
      unfold chip_spi_done
      by_cases hb : b.length = 0
      · have : b = [] := List.length_eq_zero.mp hb
        subst this
        simp [process_command_args]
      · simp [hb, hm, hr]
    rw [deliver_cons, List.flatten_cons, process_command_args_append, hdone]
    cases hb : process_command_args s b with
    | none => simp
    | some s2 =>
      obtain ⟨m2, c2, r2⟩ := process_command_args_frame b s s2 hb hc
      simp only [Option.bind]
      exact ih s2 (m2.trans hm) (r2.trans hr) (by rw [c2]; exact hc)

/-! ## Frame of the data pipeline and delivery in data mode -/

theorem process_data_sample_frame (s : ChipState) (v : Nat) :
    data_frame (process_data_sample s v) s := by
  unfold data_frame
  refine ⟨?_, ?_, ?_, ?_, ?_, ?_, ?_, ?_, ?_, ?_, ?_, ?_, ?_, ?_, ?_, ?_⟩ <;>
    simp only [process_data_sample, advance_cursor, apply_ite ChipState.mode,
      apply_ite ChipState.command_code, apply_ite ChipState.command_size,
      apply_ite ChipState.command_index, apply_ite ChipState.command_buf,
      apply_ite ChipState.ram_write, apply_ite ChipState.executed,
      apply_ite ChipState.warnings, apply_ite ChipState.width, apply_ite ChipState.height,
      apply_ite ChipState.radius, apply_ite ChipState.scanning_direction,
      apply_ite ChipState.column_start, apply_ite ChipState.column_end,
      apply_ite ChipState.page_start, apply_ite ChipState.page_end, ite_self]

theorem data_frame_trans {a b c : ChipState} (h1 : data_frame a b) (h2 : data_frame b c) :
    data_frame a c := by
  unfold data_frame at *
  obtain ⟨a1, a2, a3, a4, a5, a6, a7, a8, a9, a10, a11, a12, a13, a14, a15, a16⟩ := h1
  obtain ⟨b1, b2, b3, b4, b5, b6, b7, b8, b9, b10, b11, b12, b13, b14, b15, b16⟩ := h2
  exact ⟨a1.trans b1, a2.trans b2, a3.trans b3, a4.trans b4, a5.trans b5, a6.trans b6,
    a7.trans b7, a8.trans b8, a9.trans b9, a10.trans b10, a11.trans b11, a12.trans b12,
    a13.trans b13, a14.trans b14, a15.trans b15, a16.trans b16⟩

theorem data_frame_refl (a : ChipState) : data_frame a a := by
  unfold data_frame
  exact ⟨rfl, rfl, rfl, rfl, rfl, rfl, rfl, rfl, rfl, rfl, rfl, rfl, rfl, rfl, rfl, rfl⟩

theorem process_data_frame : ∀ (vs : List Nat) (s : ChipState),
    data_frame (process_data s vs) s := by
  intro vs
  induction vs with
  | nil => intro s; exact data_frame_refl s
  | cons v rest ih =>
    intro s
    exact data_frame_trans (ih (process_data_sample s v)) (process_data_sample_frame s v)

theorem chip_pin_change_dc_high (s : ChipState) :
    chip_pin_change s Pin.dc HIGH = { s with mode := MODE_DATA } := by
  unfold chip_pin_change
  by_cases h : s.mode = HIGH
  · cases s
    simp_all
  · simp [h]

theorem chip_spi_done_absorb (s : ChipState) (b : List Nat) (hm : s.mode = MODE_DATA)
    (hd : s.command_size ≤ s.command_index) :
    ∃ s1, chip_spi_done s b = some s1 ∧ data_frame s1 s := by
  unfold chip_spi_done
  by_cases hb : b.length = 0
  · exact ⟨s, by simp [hb], data_frame_refl s⟩
  · by_cases hr : s.ram_write = true
    · exact ⟨process_data s (samples16 b), by simp [hb, hm, hr], process_data_frame _ s⟩
    · exact ⟨s, by simp [hb, hm, hr, args_done b s hd], data_frame_refl s⟩

theorem deliver_absorb : ∀ (bufs : List (List Nat)) (s : ChipState), s.mode = MODE_DATA →
    s.command_size ≤ s.command_index → ∃ s1, deliver s bufs = some s1 ∧ data_frame s1 s := by
  intro bufs
  induction bufs with
  | nil => intro s _ _; exact ⟨s, by simp [deliver], data_frame_refl s⟩
  | cons b rest ih =>
    intro s hm hd
    obtain ⟨s1, h1, f1⟩ := chip_spi_done_absorb s b hm hd
    have f1c := f1
    unfold data_frame at f1c
    obtain ⟨s2, h2, f2⟩ := ih s1 (f1c.1.trans hm) (by rw [f1c.2.2.1, f1c.2.2.2.1]; exact hd)
    exact ⟨s2, by rw [deliver_cons, h1]; exact h2, data_frame_trans f2 f1⟩

theorem process_command_snoc (chip : ChipState) (pre : List Nat) (c : Nat) :
    process_command chip (pre ++ [c]) = process_command_byte (process_command chip pre) c := by
  simp [process_command, List.foldl_append]

theorem process_command_ram_write (chip : ChipState) (buffer : List Nat) :
    (process_command chip buffer).ram_write = decide (CMD_RAMWR ∈ buffer) := by
  unfold process_command
  rw [foldl_process_command_byte_ram_write]
  simp

theorem store_args_zero_get (buf : Fin 16 → Nat) (bs : List Nat) (n : Nat) (hn : n ≤ bs.length)
    (i : Fin 16) (hi : i.val < n) : bs[i.val]? = some (store_args buf 0 (bs.take n) i) := by
  unfold store_args
  have hlen : (bs.take n).length = n := by rw [List.length_take]; omega
  have hc : 0 ≤ i.val ∧ i.val < 0 + (bs.take n).length := by rw [hlen]; omega
  rw [if_pos hc]
  have h1 : i.val < bs.length := by omega
  simp [List.getD, List.getElem?_take, hi, h1]

theorem command_args_size_pos_ne_ramwr (c : Nat) (h : 0 < command_args_size c) :
    c ≠ CMD_RAMWR := by
  intro e
  rw [e, command_args_size_ramwr] at h
  exact absurd h (by decide)

theorem deliver_args_core (s1 : ChipState) (bufs : List (List Nat))
    (hidx : s1.command_index = 0) (hL : 0 < s1.command_size) (h16 : s1.command_size ≤ 16)
    (hrw : s1.ram_write = false) (hc : s1.command_code ≠ CMD_RAMWR) :
    ∃ s2, deliver { s1 with mode := MODE_DATA } bufs = some s2 ∧
      (bufs.flatten.length < s1.command_size → s2.executed = s1.executed) ∧
      (s1.command_size ≤ bufs.flatten.length →
        ∃ snapshot : Fin 16 → Nat,
          s2.executed = s1.executed ++ [(s1.command_code, snapshot)] ∧
          ∀ i : Fin 16, i.val < s1.command_size → bufs.flatten[i.val]? = some (snapshot i)) := by
  have hd := deliver_eq_args bufs { s1 with mode := MODE_DATA } rfl hrw hc
  have he := args_expected bufs.flatten { s1 with mode := MODE_DATA } h16
    (by simp only [hidx]; exact hL)
  rw [hd, he]
  refine ⟨_, rfl, ?_, ?_⟩
  · intro hlt
    have hlt2 : s1.command_index + bufs.flatten.length < s1.command_size := by omega
    simp only [if_pos hlt2]
  · intro hge
    have hge2 : ¬ s1.command_index + bufs.flatten.length < s1.command_size := by omega
    simp only [if_neg hge2]
    refine ⟨store_args s1.command_buf 0 (bufs.flatten.take s1.command_size), ?_, ?_⟩
    · rw [execute_command_executed]
      simp [hidx]
    · intro i hi
      exact store_args_zero_get _ _ _ hge i hi

theorem process_command_byte_pos (p : ChipState) (c : Nat) (h : 0 < command_args_size c) :
    (process_command_byte p c).command_code = c ∧
    (process_command_byte p c).command_size = command_args_size c ∧
    (process_command_byte p c).command_index = 0 ∧
    (process_command_byte p c).ram_write = p.ram_write ∧
    (process_command_byte p c).executed = p.executed := by
  have hne : ¬ command_args_size c = 0 := by omega
  simp [process_command_byte, hne]

theorem process_command_byte_zero (p : ChipState) (c : Nat) (h : command_args_size c = 0) :
    (process_command_byte p c).command_size = 0 ∧
    (process_command_byte p c).command_index = 0 ∧
    (process_command_byte p c).executed = p.executed ++ [(c, p.command_buf)] := by
  simp [process_command_byte, h, execute_command_command_size, execute_command_command_index,
    execute_command_executed]

theorem deliver_latched : ∀ (bufs : List (List Nat)) (s : ChipState), s.mode = MODE_DATA →
    s.ram_write = true → ∃ s1, deliver s bufs = some s1 ∧ data_frame s1 s := by
  intro bufs
  induction bufs with
  | nil => intro s _ _; exact ⟨s, by simp [deliver], data_frame_refl s⟩
  | cons b rest ih =>
    intro s hm hr
    have h1 : ∃ s1, chip_spi_done s b = some s1 ∧ data_frame s1 s := by
      unfold chip_spi_done
      by_cases hb : b.length = 0
      · exact ⟨s, by simp [hb], data_frame_refl s⟩
      · exact ⟨process_data s (samples16 b), by simp [hb, hm, hr], process_data_frame _ s⟩
    obtain ⟨s1, h1, f1⟩ := h1
    have f1c := f1
    unfold data_frame at f1c
    obtain ⟨s2, h2, f2⟩ := ih s1 (f1c.1.trans hm) (f1c.2.2.2.2.2.1.trans hr)
    exact ⟨s2, by rw [deliver_cons, h1]; exact h2, data_frame_trans f2 f1⟩

/-! ## Command Table -/

/-- C2: for every opcode, `command_args_size` returns the count of the
specification's Command Table (1, 2, 3, 4, 6 or 16 for the listed opcodes and 0
for every other one), and the result never exceeds the 16 bytes of
`command_buf`. -/
theorem command_args_size_table (c : Nat) :
    command_args_size c = table_count c ∧ command_args_size c ≤ 16 := by
  by_cases h : c < 256
  · interval_cases c <;> decide
  · have h0 : command_args_size c = 0 := by
      have e : ∀ k, k < 256 → c ≠ k := fun k hk => by omega
      simp [command_args_size, e, CMD_MADCTL, CMD_PWCTR2, CMD_INVCTR, CMD_VMCTR, CMD_COLMOD,
        CMD_PWCTR3, CMD_PWCTR4, CMD_PWCTR5, CMD_DISSET5, CMD_FRMCTR1, CMD_FRMCTR2, CMD_PWCTR1,
        CMD_CASET, CMD_PASET, CMD_FRMCTR3, CMD_GMCTRP1, CMD_GMCTRN1]
    have h2 : table_count c = 0 := by
      have e : ∀ k, k < 256 → decide (c = k) = false :=
        fun k hk => decide_eq_false (by omega)
      simp [table_count, command_table, List.find?, e]
    omega

/-! ## Pixel codec -/

/-- C6: for a 16-bit wire color `v` with fields `r = v / 2048` (bits 15..11),
`g = v / 32 % 64` (bits 10..5) and `b = v % 32` (bits 4..0), `rgb565_to_rgba v`
is a 32-bit word whose alpha byte is 0xFF, blue byte (bits 23..16) is `b * 8`,
green byte (bits 15..8) is `g * 4` and red byte (bits 7..0) is `r * 8`; wire
color 0xF800 decodes to 0xFF0000F8 (red 0xF8, green 0, blue 0, alpha 0xFF), and
no wire color has a larger red byte. -/
theorem rgb565_to_rgba_channels (v : Nat) (hv : v < 65536) :
    rgb565_to_rgba v < 4294967296 ∧
    rgb565_to_rgba v / 16777216 % 256 = 0xFF ∧
    rgb565_to_rgba v / 65536 % 256 = (v % 32) * 8 ∧
    rgb565_to_rgba v / 256 % 256 = (v / 32 % 64) * 4 ∧
    rgb565_to_rgba v % 256 = (v / 2048) * 8 ∧
    rgb565_to_rgba 0xF800 = 0xFF0000F8 ∧
    rgb565_to_rgba v % 256 ≤ rgb565_to_rgba 0xF800 % 256 := by
  have h := rgba_value v hv
  have h8 : rgb565_to_rgba 0xF800 = 0xFF0000F8 := by decide
  have hr : v / 2048 < 32 := by omega
  have hg : v / 32 % 64 < 64 := by omega
  have hb : v % 32 < 32 := by omega
  rw [h8, h]
  generalize v / 2048 = r at hr
  generalize v / 32 % 64 = g at hg
  generalize v % 32 = b at hb
  refine ⟨?_, ?_, ?_, ?_, ?_, ?_, ?_⟩ <;> omega

/-- Witness of C6 at the wire color 0xF800. -/
theorem rgb565_to_rgba_channels_witness :
    (0xF800 : Nat) < 65536 ∧ rgb565_to_rgba 0xF800 / 16777216 % 256 = 0xFF ∧
    rgb565_to_rgba 0xF800 % 256 = (0xF800 / 2048) * 8 :=
  ⟨by decide, (rgb565_to_rgba_channels 0xF800 (by decide)).2.1,
    (rgb565_to_rgba_channels 0xF800 (by decide)).2.2.2.2.1⟩

/-! ## Command Dispatcher: window commands -/

/-- C4: executing column-address-set or page-address-set with argument bytes
`b0..b3 = command_buf[0..3]` computes `start = b0 * 256 + b1` and
`end = b2 * 256 + b3` and updates exactly one axis.  The page window is the
updated axis for page-address-set with the swap bit (0x20) clear and for
column-address-set with it set; otherwise the column window is.  The updated
axis gets start, end and cursor = start; on the page window with the
vertical-mirror bit (0x80) set, 32 is subtracted (as `uint32_t`) from all
three; the column window is never offset; the other axis keeps its start, end
and cursor.  Column-address-set `(0x00, 0x00, 0x00, 0xEF)` with the swap bit
clear gives `column_start = 0`, `column_end = 239`. -/
theorem execute_command_window (chip : ChipState)
    (hcode : chip.command_code = CMD_CASET ∨ chip.command_code = CMD_PASET)
    (hbuf : ∀ i, chip.command_buf i < 256) :
    let start := chip.command_buf 0 * 256 + chip.command_buf 1
    let stop := chip.command_buf 2 * 256 + chip.command_buf 3
    let swap := chip.scanning_direction &&& 0x20 ≠ 0
    let page_axis :=
      (chip.command_code = CMD_PASET ∧ ¬ swap) ∨ (chip.command_code = CMD_CASET ∧ swap)
    let r := execute_command chip
    (page_axis →
        r.column_start = chip.column_start ∧ r.column_end = chip.column_end ∧
        r.active_column = chip.active_column ∧
        (chip.scanning_direction &&& 0x80 = 0 →
          r.page_start = start ∧ r.page_end = stop ∧ r.active_page = start) ∧
        (chip.scanning_direction &&& 0x80 ≠ 0 →
          r.page_start = u32 ((start : Int) - 32) ∧ r.page_end = u32 ((stop : Int) - 32) ∧
          r.active_page = u32 ((start : Int) - 32) ∧
          (32 ≤ start → r.page_start = start - 32 ∧ r.active_page = start - 32) ∧
          (32 ≤ stop → r.page_end = stop - 32))) ∧
    (¬ page_axis →
        r.page_start = chip.page_start ∧ r.page_end = chip.page_end ∧
        r.active_page = chip.active_page ∧
        r.column_start = start ∧ r.column_end = stop ∧ r.active_column = start) ∧
    (chip.command_code = CMD_CASET → ¬ swap →
        chip.command_buf 0 = 0x00 → chip.command_buf 1 = 0x00 →
        chip.command_buf 2 = 0x00 → chip.command_buf 3 = 0xEF →
        r.column_start = 0 ∧ r.column_end = 239) := by
  intro start stop swap page_axis r
  have e0 := be16 _ _ (hbuf 0) (hbuf 1)
  have e2 := be16 _ _ (hbuf 2) (hbuf 3)
  have hs0 : start < 65536 := by have := hbuf 0; have := hbuf 1; omega
  have hs2 : stop < 65536 := by have := hbuf 2; have := hbuf 3; omega
  have c0 : u32 ((chip.command_buf 0 : Int) * 256 + (chip.command_buf 1 : Int) - 32)
      = u32 ((start : Int) - 32) := by simp [start]
  have c2 : u32 ((chip.command_buf 2 : Int) * 256 + (chip.command_buf 3 : Int) - 32)
      = u32 ((stop : Int) - 32) := by simp [stop]
  have w0 : 32 ≤ start → u32 ((start : Int) - 32) = start - 32 := by
    intro h; unfold u32; omega
  have w2 : 32 ≤ stop → u32 ((stop : Int) - 32) = stop - 32 := by
    intro h; unfold u32; omega
  rcases hcode with hc | hc <;>
    by_cases hs : chip.scanning_direction &&& 0x20 = 0 <;>
    by_cases hm : chip.scanning_direction &&& 0x80 = 0 <;>
    simp [r, page_axis, swap, execute_command, hc, hs, hm, e0, e2] <;>
    first
      | (intro h0 h1 h2 h3; simp [start, stop, h0, h1, h2, h3])
      | exact ⟨c0, c2, c0, fun h => c0.trans (w0 h), fun h => c2.trans (w2 h)⟩

/-- Witness of C4: column-address-set `(0x00, 0x00, 0x00, 0xEF)` on the
freshly initialised 240x240 panel. -/
theorem execute_command_window_witness :
    (caset_full_width.command_code = CMD_CASET ∨ caset_full_width.command_code = CMD_PASET) ∧
    (∀ i, caset_full_width.command_buf i < 256) ∧
    (execute_command caset_full_width).column_start = 0 ∧
    (execute_command caset_full_width).column_end = 239 :=
  ⟨by decide, by decide,
    (execute_command_window caset_full_width (by decide) (by decide)).2.2
      (by decide) (by decide) (by decide) (by decide) (by decide) (by decide)⟩

/-! ## Protocol State Machine: dispatch count -/

/-- C1 (as amended): let `c` be the last opcode of a command buffer
`pre ++ [c]`, `L = command_args_size c`, and let the buffers `bufs` then arrive
in data mode.  If `L = 0`, `execute_command` runs exactly once, while the
opcode is received, and the data buffers neither run it again nor change
`command_buf` or `command_index`.  If `L > 0`, it does not run at opcode
receipt; provided no memory-write opcode occurs in `pre` (so the latch is
clear), it has run zero times while the buffers hold fewer than `L` bytes, and
exactly once as soon as they hold `L` bytes or more, with `command_buf[0..L)`
at that call equal to the first `L` bytes in order.  If a memory-write opcode
occurs in `pre`, the data buffers are taken as color samples and `c` is not
dispatched. -/
theorem dispatch_exactly_once (chip : ChipState) (pre : List Nat) (c : Nat)
    (bufs : List (List Nat)) :
    (command_args_size c = 0 →
      (process_command chip (pre ++ [c])).executed
        = (process_command chip pre).executed ++ [(c, (process_command chip pre).command_buf)] ∧
      ∃ s2, deliver (chip_pin_change (process_command chip (pre ++ [c])) Pin.dc HIGH) bufs
          = some s2 ∧
        s2.executed = (process_command chip (pre ++ [c])).executed ∧
        s2.command_buf = (process_command chip (pre ++ [c])).command_buf ∧
        s2.command_index = 0) ∧
    (0 < command_args_size c →
      (process_command chip (pre ++ [c])).executed = (process_command chip pre).executed ∧
      (CMD_RAMWR ∉ pre →
        ∃ s2, deliver (chip_pin_change (process_command chip (pre ++ [c])) Pin.dc HIGH) bufs
            = some s2 ∧
          (bufs.flatten.length < command_args_size c →
            s2.executed = (process_command chip (pre ++ [c])).executed) ∧
          (command_args_size c ≤ bufs.flatten.length →
            ∃ snapshot : Fin 16 → Nat,
              s2.executed = (process_command chip (pre ++ [c])).executed ++ [(c, snapshot)] ∧
              ∀ i : Fin 16, i.val < command_args_size c →
                bufs.flatten[i.val]? = some (snapshot i))) ∧
      (CMD_RAMWR ∈ pre →
        ∃ s2, deliver (chip_pin_change (process_command chip (pre ++ [c])) Pin.dc HIGH) bufs
            = some s2 ∧
          s2.executed = (process_command chip (pre ++ [c])).executed)) := by
  rw [process_command_snoc, chip_pin_change_dc_high]
  constructor
  · intro hL
    obtain ⟨z1, z2, z3⟩ := process_command_byte_zero (process_command chip pre) c hL
    refine ⟨z3, ?_⟩
    obtain ⟨s2, h2, f2⟩ := deliver_absorb bufs
      { process_command_byte (process_command chip pre) c with mode := MODE_DATA } rfl
      (by simp only [z1, z2]; exact le_refl _)
    unfold data_frame at f2
    refine ⟨s2, h2, f2.2.2.2.2.2.2.1, f2.2.2.2.2.1, ?_⟩
    rw [f2.2.2.2.1]
    exact z2
  · intro hL
    obtain ⟨p1, p2, p3, p4, p5⟩ := process_command_byte_pos (process_command chip pre) c hL
    refine ⟨p5, ?_, ?_⟩
    rotate_left
    · intro hpre
      have hrw : (process_command chip pre).ram_write = true := by
        rw [process_command_ram_write]; simpa using hpre
      obtain ⟨s2, h2, f2⟩ := deliver_latched bufs
        { process_command_byte (process_command chip pre) c with mode := MODE_DATA } rfl
        (by simp only [p4]; exact hrw)
      unfold data_frame at f2
      exact ⟨s2, h2, f2.2.2.2.2.2.2.1⟩
    intro hpre
    have hrw : (process_command chip pre).ram_write = false := by
      rw [process_command_ram_write]; simpa using hpre
    have h16 := command_args_size_le c
    have core := deliver_args_core (process_command_byte (process_command chip pre) c) bufs p3
      (by rw [p2]; exact hL) (by rw [p2]; exact h16) (by rw [p4]; exact hrw)
      (by rw [p1]; exact command_args_size_pos_ne_ramwr c hL)
    obtain ⟨s2, h2, hfew, hall⟩ := core
    refine ⟨s2, h2, fun h => hfew (by rw [p2]; exact h), fun h => ?_⟩
    obtain ⟨snapshot, e1, e2⟩ := hall (by rw [p2]; exact h)
    exact ⟨snapshot, by rw [e1, p1], fun i hi => e2 i (by rw [p2]; exact hi)⟩

/-- Witness of C1: column-address-set followed by five data-mode bytes in two
buffers on the 240x240 panel. -/
theorem dispatch_exactly_once_witness :
    ∃ s2, deliver (chip_pin_change (process_command panel240 ([] ++ [0x2A])) Pin.dc HIGH)
        [[0x00, 0x00], [0x00, 0xEF, 0x55]] = some s2 ∧
      ∃ snapshot : Fin 16 → Nat,
        s2.executed = (process_command panel240 ([] ++ [0x2A])).executed ++ [(0x2A, snapshot)] ∧
        snapshot 3 = 0xEF := by
  obtain ⟨s2, h, _, hall⟩ :=
    ((dispatch_exactly_once panel240 [] 0x2A [[0x00, 0x00], [0x00, 0xEF, 0x55]]).2
      (by decide)).2.1 (by decide)
  obtain ⟨snapshot, e1, e2⟩ := hall (by decide)
  have e3 : ([[0x00, 0x00], [0x00, 0xEF, 0x55]] : List (List Nat)).flatten[3]?
      = some (snapshot 3) := e2 3 (by decide)
  have e4 : (0xEF : Nat) = snapshot 3 := by simpa using e3
  exact ⟨s2, h, snapshot, e1, e4.symm⟩

/-- Counterexample to C1 as stated: the command buffer `[0x2C, 0x2A]` ends in
column-address-set (`L = 4`), yet after four data-mode bytes the only call of
`execute_command` is the one for memory-write; the bytes went to
`process_data`. -/
theorem dispatch_counterexample :
    command_args_size 0x2A = 4 ∧
    (deliver (chip_pin_change (process_command panel240 [0x2C, 0x2A]) Pin.dc HIGH)
        [[0x00, 0x00, 0x00, 0xEF]]).map (fun s => s.executed.map Prod.fst) = some [0x2C] := by
  decide

/-! ## Write-enable latch -/

/-- C3 (as amended): after `process_command` on any buffer, `ram_write` is
true if and only if the buffer contains a memory-write opcode (0x2C) at any
position: the latch is cleared once, before the first opcode, and set by every
memory-write.  So it is true when the last opcode is memory-write and false
when the buffer has none.  When it is true, the next non-empty data-mode
buffer handled by `chip_spi_done` is passed to `process_data` as
`count / 2` 16-bit samples, not to `process_command_args`. -/
theorem ram_write_after_process_command (chip : ChipState) (buffer data : List Nat) :
    ((process_command chip buffer).ram_write = true ↔ CMD_RAMWR ∈ buffer) ∧
    (buffer.getLast? = some CMD_RAMWR → (process_command chip buffer).ram_write = true) ∧
    (CMD_RAMWR ∈ buffer → data ≠ [] →
      chip_spi_done (chip_pin_change (process_command chip buffer) Pin.dc HIGH) data
        = some (process_data (chip_pin_change (process_command chip buffer) Pin.dc HIGH)
            (samples16 data)) ∧
      (samples16 data).length = data.length / 2) := by
  have hiff : (process_command chip buffer).ram_write = true ↔ CMD_RAMWR ∈ buffer := by
    rw [process_command_ram_write]; simp
  refine ⟨hiff, ?_, ?_⟩
  · intro hlast
    exact hiff.mpr (List.mem_of_getLast?_eq_some hlast)
  · intro hmem hdata
    have hlen : ¬ data.length = 0 := fun e => hdata (List.length_eq_zero.mp e)
    rw [chip_pin_change_dc_high]
    refine ⟨?_, samples16_length data⟩
    simp [chip_spi_done, hlen, hiff.mpr hmem]

/-- Witness of C3: memory-write alone in the command buffer, then one sample. -/
theorem ram_write_after_process_command_witness :
    CMD_RAMWR ∈ [0x2C] ∧ ([0x00, 0xF8] : List Nat) ≠ [] ∧
    chip_spi_done (chip_pin_change (process_command panel240 [0x2C]) Pin.dc HIGH) [0x00, 0xF8]
      = some (process_data (chip_pin_change (process_command panel240 [0x2C]) Pin.dc HIGH)
          (samples16 [0x00, 0xF8])) :=
  ⟨by decide, by decide,
    ((ram_write_after_process_command panel240 [0x2C] [0x00, 0xF8]).2.2
      (by decide) (by decide)).1⟩

/-- Counterexample to C3 as stated: after the command buffer `[0x2C, 0x00]` the
latch is set although the last opcode is no-op, not memory-write. -/
theorem ram_write_counterexample :
    ¬ ((process_command panel240 [0x2C, 0x00]).ram_write = true ↔
        [0x2C, 0x00].getLast? = some CMD_RAMWR) := by
  decide

/-! ## Orientation and window commands on the wire -/

theorem chip_pin_change_dc_low (s : ChipState) :
    chip_pin_change s Pin.dc LOW = { s with mode := MODE_COMMAND } := by
  unfold chip_pin_change
  by_cases h : s.mode = LOW
  · cases s
    simp_all
  · simp [h]

theorem process_command_single (s : ChipState) (op : Nat) (h : 0 < command_args_size op) :
    process_command s [op]
      = { s with
          ram_write := false
          command_code := op
          command_size := command_args_size op
          command_index := 0 } := by
  have hne : ¬ command_args_size op = 0 := by omega
  simp [process_command, process_command_byte, hne]

theorem issue_closed_form (chip : ChipState) (cmd : WindowCommand) :
    issue chip cmd
      = some (execute_command
          { chip with
            mode := MODE_DATA
            ram_write := false
            command_code := cmd.opcode
            command_size := command_args_size cmd.opcode
            command_index := command_args_size cmd.opcode
            command_buf := store_args chip.command_buf 0 cmd.args }) := by
  have hpos : 0 < command_args_size cmd.opcode := by
    cases cmd <;> (simp only [WindowCommand.opcode]; decide)
  have hlen : cmd.args.length = command_args_size cmd.opcode := by
    cases cmd <;>
      (simp only [WindowCommand.opcode, WindowCommand.args, List.length_cons, List.length_nil]
       decide)
  have h16 := command_args_size_le cmd.opcode
  have hne : cmd.args ≠ [] := by
    intro e; rw [e] at hlen; simp at hlen; omega
  have hlen0 : ¬ cmd.args.length = 0 := by omega
  unfold issue
  rw [chip_pin_change_dc_low]
  have h1 : chip_spi_done { chip with mode := MODE_COMMAND } [cmd.opcode]
      = some (process_command { chip with mode := MODE_COMMAND } [cmd.opcode]) := by
    simp [chip_spi_done]
  rw [h1, process_command_single _ _ hpos]
  simp only [Option.bind]
  rw [chip_pin_change_dc_high]
  simp only [chip_spi_done, hlen0, if_false, if_true]
  rw [if_neg (by simp)]
  rw [args_dispatch cmd.args _ h16 hne (by simp only []; omega)]

theorem issue_window (chip : ChipState) (cmd : WindowCommand) :
    ∃ s, issue chip cmd = some s ∧ s.window = window_step chip.window cmd := by
  rw [issue_closed_form]
  refine ⟨_, rfl, ?_⟩
  have v3 : ((3 : Fin 16) : Nat) = 3 := rfl
  cases cmd with
  | madctl b0 =>
    simp [ChipState.window, window_step, execute_command, WindowCommand.opcode,
      WindowCommand.args, store_args]
  | caset b0 b1 b2 b3 =>
    by_cases hs : chip.scanning_direction &&& 0x20 = 0 <;>
    by_cases hm : chip.scanning_direction &&& 0x80 = 0 <;>
    simp [ChipState.window, window_step, set_axis, execute_command, WindowCommand.opcode,
      WindowCommand.args, store_args, hs, hm, v3]
  | paset b0 b1 b2 b3 =>
    by_cases hs : chip.scanning_direction &&& 0x20 = 0 <;>
    by_cases hm : chip.scanning_direction &&& 0x80 = 0 <;>
    simp [ChipState.window, window_step, set_axis, execute_command, WindowCommand.opcode,
      WindowCommand.args, store_args, hs, hm, v3]

theorem issue_all_window : ∀ (cmds : List WindowCommand) (chip : ChipState),
    ∃ s, issue_all chip cmds = some s ∧ s.window = cmds.foldl window_step chip.window := by
  intro cmds
  induction cmds with
  | nil => intro chip; exact ⟨chip, by simp [issue_all], rfl⟩
  | cons cmd rest ih =>
    intro chip
    obtain ⟨s1, h1, w1⟩ := issue_window chip cmd
    obtain ⟨s2, h2, w2⟩ := ih s1
    refine ⟨s2, ?_, ?_⟩
    · simp only [issue_all, List.foldlM_cons, h1]
      exact h2
    · rw [w2, w1, List.foldl_cons]

theorem set_axis_merge (tc tp set_page : Bool) (e w : Window) (b0 b1 b2 b3 : Nat) :
    ∃ tc1 tp1, set_axis (merge tc tp e w) set_page b0 b1 b2 b3
      = merge tc1 tp1 (set_axis e set_page b0 b1 b2 b3) w := by
  by_cases hp : (if e.scanning_direction &&& SCAN_MV ≠ 0 then !set_page else set_page) = true
  · refine ⟨tc, true, ?_⟩
    by_cases hm : e.scanning_direction &&& SCAN_MY ≠ 0
    · simp only [set_axis, merge]
      rw [if_pos hp, if_pos hp, if_pos hm, if_pos hm]
      simp
    · simp only [set_axis, merge]
      rw [if_pos hp, if_pos hp, if_neg hm, if_neg hm]
      simp
  · refine ⟨true, tp, ?_⟩
    simp only [set_axis, merge]
    rw [if_neg hp, if_neg hp]
    rfl

theorem window_step_merge (tc tp : Bool) (e w : Window) (cmd : WindowCommand) :
    ∃ tc1 tp1, window_step (merge tc tp e w) cmd = merge tc1 tp1 (window_step e cmd) w := by
  cases cmd with
  | madctl b0 => exact ⟨tc, tp, rfl⟩
  | caset b0 b1 b2 b3 => exact set_axis_merge tc tp false e w b0 b1 b2 b3
  | paset b0 b1 b2 b3 => exact set_axis_merge tc tp true e w b0 b1 b2 b3

theorem foldl_window_step_merge : ∀ (cmds : List WindowCommand) (tc tp : Bool) (e w : Window),
    ∃ tc1 tp1, cmds.foldl window_step (merge tc tp e w)
      = merge tc1 tp1 (cmds.foldl window_step e) w := by
  intro cmds
  induction cmds with
  | nil => intro tc tp e w; exact ⟨tc, tp, rfl⟩
  | cons cmd rest ih =>
    intro tc tp e w
    obtain ⟨tc1, tp1, h1⟩ := window_step_merge tc tp e w cmd
    obtain ⟨tc2, tp2, h2⟩ := ih tc1 tp1 (window_step e cmd) w
    exact ⟨tc2, tp2, by rw [List.foldl_cons, h1, h2, List.foldl_cons]⟩

theorem merge_self (tc tp : Bool) (w : Window) : merge tc tp w w = w := by
  cases tc <;> cases tp <;> rfl

theorem merge_orientation (e w : Window) :
    merge false false e w = { w with scanning_direction := e.scanning_direction } := rfl

/-- A second pass of a command sequence changes nothing when the first pass
left the orientation it started from. -/
theorem window_idempotent_same_orientation (cmds : List WindowCommand) (w : Window)
    (h : (cmds.foldl window_step w).scanning_direction = w.scanning_direction) :
    cmds.foldl window_step (cmds.foldl window_step w) = cmds.foldl window_step w := by
  have e1 : cmds.foldl window_step w = merge false false w (cmds.foldl window_step w) := by
    rw [merge_orientation, ← h]
  obtain ⟨tc1, tp1, h1⟩ := foldl_window_step_merge cmds false false w (cmds.foldl window_step w)
  conv_lhs => rw [e1]
  rw [h1, merge_self]

/-- A second pass changes nothing when the sequence begins with
orientation-control. -/
theorem window_idempotent_madctl_first (b0 : Nat) (rest : List WindowCommand) (w : Window) :
    (WindowCommand.madctl b0 :: rest).foldl window_step
        ((WindowCommand.madctl b0 :: rest).foldl window_step w)
      = (WindowCommand.madctl b0 :: rest).foldl window_step w := by
  simp only [List.foldl_cons, window_step]
  have e1 : ({ rest.foldl window_step { w with scanning_direction := b0 &&& 0xe0 } with
        scanning_direction := b0 &&& 0xe0 } : Window)
      = merge false false { w with scanning_direction := b0 &&& 0xe0 }
          (rest.foldl window_step { w with scanning_direction := b0 &&& 0xe0 }) := rfl
  obtain ⟨tc1, tp1, h1⟩ := foldl_window_step_merge rest false false
    { w with scanning_direction := b0 &&& 0xe0 }
    (rest.foldl window_step { w with scanning_direction := b0 &&& 0xe0 })
  rw [e1, h1, merge_self]

theorem set_axis_orientation (w : Window) (set_page : Bool) (b0 b1 b2 b3 : Nat) :
    (set_axis w set_page b0 b1 b2 b3).scanning_direction = w.scanning_direction := by
  simp only [set_axis, apply_ite Window.scanning_direction, ite_self]

theorem orientation_kept_or_fixed : ∀ cmds : List WindowCommand,
    (∀ w : Window, (cmds.foldl window_step w).scanning_direction = w.scanning_direction) ∨
    (∃ v, ∀ w : Window, (cmds.foldl window_step w).scanning_direction = v) := by
  intro cmds
  induction cmds with
  | nil => exact Or.inl (fun w => rfl)
  | cons cmd rest ih =>
    rcases ih with hid | ⟨v, hv⟩
    · cases cmd with
      | madctl b0 =>
        exact Or.inr ⟨b0 &&& 0xe0, fun w => by rw [List.foldl_cons, hid]; rfl⟩
      | caset b0 b1 b2 b3 =>
        exact Or.inl (fun w => by
          rw [List.foldl_cons, hid]; exact set_axis_orientation w false b0 b1 b2 b3)
      | paset b0 b1 b2 b3 =>
        exact Or.inl (fun w => by
          rw [List.foldl_cons, hid]; exact set_axis_orientation w true b0 b1 b2 b3)
    · exact Or.inr ⟨v, fun w => by rw [List.foldl_cons, hv]⟩

theorem orientation_after_second_pass (cmds : List WindowCommand) (w : Window) :
    (cmds.foldl window_step (cmds.foldl window_step w)).scanning_direction
      = (cmds.foldl window_step w).scanning_direction := by
  rcases orientation_kept_or_fixed cmds with hid | ⟨v, hv⟩
  · rw [hid]
  · rw [hv, hv]

/-- C10 (as amended): for every chip state and every sequence of
orientation-control, column-address-set and page-address-set commands with
fixed argument bytes, every issue of the sequence returns, and issuing it twice
leaves the same Addressing Window state and `scanning_direction` as issuing it
once whenever the sequence begins with orientation-control or the orientation
after the first issue equals the orientation before it; in every case a third
issue leaves the same state as the second. -/
theorem window_commands_idempotent (chip : ChipState) (cmds : List WindowCommand) :
    ∃ s1 s2 s3, issue_all chip cmds = some s1 ∧ issue_all s1 cmds = some s2 ∧
      issue_all s2 cmds = some s3 ∧
      (((∃ b0 rest, cmds = WindowCommand.madctl b0 :: rest) ∨
          s1.scanning_direction = chip.scanning_direction) → s2.window = s1.window) ∧
      s3.window = s2.window := by
  obtain ⟨s1, h1, w1⟩ := issue_all_window cmds chip
  obtain ⟨s2, h2, w2⟩ := issue_all_window cmds s1
  obtain ⟨s3, h3, w3⟩ := issue_all_window cmds s2
  refine ⟨s1, s2, s3, h1, h2, h3, ?_, ?_⟩
  · intro h
    rw [w2, w1]
    rcases h with ⟨b0, rest, hc⟩ | hsd
    · subst hc
      exact window_idempotent_madctl_first b0 rest chip.window
    · apply window_idempotent_same_orientation
      have : s1.window.scanning_direction = chip.window.scanning_direction := hsd
      rw [← w1]
      exact this
  · rw [w3, w2]
    apply window_idempotent_same_orientation
    rw [w1]
    exact orientation_after_second_pass cmds chip.window

/-- Witness of C10: a sequence that begins with orientation-control, on the
240x240 panel. -/
theorem window_commands_idempotent_witness :
    ∃ s1 s2, issue_all panel240 [.madctl 0xA0, .caset 0 0 0 0xEF, .paset 0 0x20 0 0xEF] = some s1 ∧
      issue_all s1 [.madctl 0xA0, .caset 0 0 0 0xEF, .paset 0 0x20 0 0xEF] = some s2 ∧
      s2.window = s1.window := by
  obtain ⟨s1, s2, _, h1, h2, _, h, _⟩ :=
    window_commands_idempotent panel240 [.madctl 0xA0, .caset 0 0 0 0xEF, .paset 0 0x20 0 0xEF]
  exact ⟨s1, s2, h1, h2, h (Or.inl ⟨_, _, rfl⟩)⟩

/-- Counterexample to C10 as stated: column-address-set followed by
orientation-control 0x20.  Issued once it leaves the page window at (0, 239);
issued twice, the second column-address-set runs with the swap bit set and
moves the page window to (0, 10). -/
theorem window_commands_counterexample :
    (issue_all panel240 [.caset 0 0 0 10, .madctl 0x20]).map
        (fun s => (s.page_start, s.page_end)) = some (0, 239) ∧
    ((issue_all panel240 [.caset 0 0 0 10, .madctl 0x20]).bind
        (fun s => issue_all s [.caset 0 0 0 10, .madctl 0x20])).map
        (fun s => (s.page_start, s.page_end)) = some (0, 10) := by
  decide

/-- C9 (as amended): byte 0xA0 sets the swap bit (0x20) together with the
vertical-mirror bit (0x80), so orientation-control 0xA0 followed by
page-address-set `(0x00, 0x20, 0x00, 0xEF)` updates the column window, without
offset: `column_start = 32`, `column_end = 239`, `active_column = 32`, page
window unchanged.  The page window `page_start = 0`, `page_end = 207`,
`active_page = 0` results from orientation byte 0x80 with page-address-set, and
from orientation byte 0xA0 with column-address-set. -/
theorem madctl_then_paset (chip : ChipState) :
    (∃ s, issue_all chip [.madctl 0xA0, .paset 0x00 0x20 0x00 0xEF] = some s ∧
      s.scanning_direction = 0xA0 ∧
      s.column_start = 32 ∧ s.column_end = 239 ∧ s.active_column = 32 ∧
      s.page_start = chip.page_start ∧ s.page_end = chip.page_end ∧
      s.active_page = chip.active_page) ∧
    (∃ s, issue_all chip [.madctl 0x80, .paset 0x00 0x20 0x00 0xEF] = some s ∧
      s.page_start = 0 ∧ s.page_end = 207 ∧ s.active_page = 0) ∧
    (∃ s, issue_all chip [.madctl 0xA0, .caset 0x00 0x20 0x00 0xEF] = some s ∧
      s.page_start = 0 ∧ s.page_end = 207 ∧ s.active_page = 0) := by
  have a1 : (160 : Nat) &&& 224 = 160 := by decide
  have a2 : (160 : Nat) &&& 32 = 32 := by decide
  have a3 : (160 : Nat) &&& 128 = 128 := by decide
  have b1 : (128 : Nat) &&& 224 = 128 := by decide
  have b2 : (128 : Nat) &&& 32 = 0 := by decide
  refine ⟨?_, ?_, ?_⟩
  · obtain ⟨s, h, w⟩ := issue_all_window [.madctl 0xA0, .paset 0x00 0x20 0x00 0xEF] chip
    have e : s.window = { chip.window with
        scanning_direction := 0xA0, column_start := 32, column_end := 239,
        active_column := 32 } := by
      rw [w]; simp [window_step, set_axis, a1, a2, a3, SCAN_MV, SCAN_MY]
    simp only [ChipState.window, Window.mk.injEq] at e
    exact ⟨s, h, e.2.2.2.2.2.2, e.1, e.2.1, e.2.2.2.2.1, e.2.2.1, e.2.2.2.1, e.2.2.2.2.2.1⟩
  · obtain ⟨s, h, w⟩ := issue_all_window [.madctl 0x80, .paset 0x00 0x20 0x00 0xEF] chip
    have e : s.window = { chip.window with
        scanning_direction := 0x80, page_start := 0, page_end := 207,
        active_page := 0 } := by
      rw [w]; simp [window_step, set_axis, u32, a1, a2, a3, b1, b2, SCAN_MV, SCAN_MY]
    simp only [ChipState.window, Window.mk.injEq] at e
    exact ⟨s, h, e.2.2.1, e.2.2.2.1, e.2.2.2.2.2.1⟩
  · obtain ⟨s, h, w⟩ := issue_all_window [.madctl 0xA0, .caset 0x00 0x20 0x00 0xEF] chip
    have e : s.window = { chip.window with
        scanning_direction := 0xA0, page_start := 0, page_end := 207,
        active_page := 0 } := by
      rw [w]; simp [window_step, set_axis, u32, a1, a2, a3, b1, b2, SCAN_MV, SCAN_MY]
    simp only [ChipState.window, Window.mk.injEq] at e
    exact ⟨s, h, e.2.2.1, e.2.2.2.1, e.2.2.2.2.2.1⟩

/-- Counterexample to C9 as stated: on the 240x240 panel after `chip_init`,
orientation-control 0xA0 and page-address-set `(0x00, 0x20, 0x00, 0xEF)` leave
the page window at (0, 239), not (0, 207). -/
theorem madctl_then_paset_counterexample :
    (issue_all panel240 [.madctl 0xA0, .paset 0x00 0x20 0x00 0xEF]).map
        (fun s => (s.page_start, s.page_end, s.active_page))
      = some (0, 239, 0) ∧
    (issue_all panel240 [.madctl 0xA0, .paset 0x00 0x20 0x00 0xEF]).map
        (fun s => (s.page_start, s.page_end, s.active_page))
      ≠ some (0, 207, 0) := by
  decide

/-! ## Data pipeline: coordinates, offset and circular mask -/

theorem succ_mod_cases (k W : Nat) (hW : 0 < W) :
    (k % W + 1 < W ∧ (k + 1) % W = k % W + 1 ∧ (k + 1) / W = k / W) ∨
    (k % W + 1 = W ∧ (k + 1) % W = 0 ∧ (k + 1) / W = k / W + 1) := by
  have hm := Nat.mod_lt k hW
  have hd := Nat.div_add_mod k W
  by_cases h : k % W + 1 < W
  · left
    have := (Nat.div_mod_unique hW).mpr
      ⟨(by omega : (k % W + 1) + W * (k / W) = k + 1), h⟩
    exact ⟨h, this.2, this.1⟩
  · right
    have h2 : k % W + 1 = W := by omega
    have := (Nat.div_mod_unique hW).mpr
      ⟨(by rw [Nat.mul_add]; omega : 0 + W * (k / W + 1) = k + 1), hW⟩
    exact ⟨h2, this.2, this.1⟩

theorem uadd_one (n : Nat) (h : n < 4294967295) : uadd n 1 = n + 1 := by
  unfold uadd u32
  omega

/-- Cursor of `advance_cursor` on a row-major window position. -/
theorem advance_cursor_row (s : ChipState) (a b : Nat)
    (hsd : s.scanning_direction &&& 0x20 = 0)
    (hce : s.column_end < 4294967295) (hpe : s.page_end < 4294967295)
    (hc : s.active_column = s.column_start + a) (ha : s.column_start + a ≤ s.column_end)
    (hp : s.active_page = s.page_start + b) (hb : s.page_start + b ≤ s.page_end) :
    (advance_cursor s).active_column
      = (if s.column_start + a + 1 ≤ s.column_end then s.column_start + a + 1
         else s.column_start) ∧
    (advance_cursor s).active_page
      = (if s.column_start + a + 1 ≤ s.column_end then s.page_start + b
         else if s.page_start + b + 1 ≤ s.page_end then s.page_start + b + 1
         else s.page_start) := by
  have u1 : uadd s.active_column 1 = s.column_start + a + 1 := by
    rw [hc]; exact uadd_one _ (by omega)
  have u2 : uadd s.active_page 1 = s.page_start + b + 1 := by
    rw [hp]; exact uadd_one _ (by omega)
  unfold advance_cursor
  simp only [SCAN_MV, hsd, ne_eq, not_true_eq_false, if_false, u1, u2, gt_iff_lt]
  by_cases h1 : s.column_start + a + 1 ≤ s.column_end
  · have h1n : ¬ s.column_end < s.column_start + a + 1 := by omega
    simp [h1, h1n, hp]
  · have h1n : s.column_end < s.column_start + a + 1 := by omega
    by_cases h2 : s.page_start + b + 1 ≤ s.page_end
    · have h2n : ¬ s.page_end < s.page_start + b + 1 := by omega
      simp [h1, h1n, h2, h2n]
    · have h2n : s.page_end < s.page_start + b + 1 := by omega
      simp [h1, h1n, h2, h2n]

/-- Cursor of `advance_cursor` on a column-major window position. -/
theorem advance_cursor_column (s : ChipState) (a b : Nat)
    (hsd : s.scanning_direction &&& 0x20 ≠ 0)
    (hce : s.column_end < 4294967295) (hpe : s.page_end < 4294967295)
    (hc : s.active_column = s.column_start + a) (ha : s.column_start + a ≤ s.column_end)
    (hp : s.active_page = s.page_start + b) (hb : s.page_start + b ≤ s.page_end) :
    (advance_cursor s).active_page
      = (if s.page_start + b + 1 ≤ s.page_end then s.page_start + b + 1
         else s.page_start) ∧
    (advance_cursor s).active_column
      = (if s.page_start + b + 1 ≤ s.page_end then s.column_start + a
         else if s.column_start + a + 1 ≤ s.column_end then s.column_start + a + 1
         else s.column_start) := by
  have u1 : uadd s.active_column 1 = s.column_start + a + 1 := by
    rw [hc]; exact uadd_one _ (by omega)
  have u2 : uadd s.active_page 1 = s.page_start + b + 1 := by
    rw [hp]; exact uadd_one _ (by omega)
  unfold advance_cursor
  simp only [SCAN_MV, hsd, ne_eq, not_false_eq_true, if_true, u1, u2, gt_iff_lt]
  by_cases h1 : s.page_start + b + 1 ≤ s.page_end
  · have h1n : ¬ s.page_end < s.page_start + b + 1 := by omega
    simp [h1, h1n, hc]
  · have h1n : s.page_end < s.page_start + b + 1 := by omega
    by_cases h2 : s.column_start + a + 1 ≤ s.column_end
    · have h2n : ¬ s.column_end < s.column_start + a + 1 := by omega
      simp [h1, h1n, h2, h2n]
    · have h2n : s.column_end < s.column_start + a + 1 := by omega
      simp [h1, h1n, h2, h2n]

theorem process_data_sample_cursor (s : ChipState) (v : Nat) :
    ∃ s1 : ChipState, process_data_sample s v = advance_cursor s1 ∧
      s1.scanning_direction = s.scanning_direction ∧
      s1.column_start = s.column_start ∧ s1.column_end = s.column_end ∧
      s1.page_start = s.page_start ∧ s1.page_end = s.page_end ∧
      s1.active_column = s.active_column ∧ s1.active_page = s.active_page := by
  unfold process_data_sample
  simp only []
  split_ifs
  · exact ⟨_, rfl, rfl, rfl, rfl, rfl, rfl, rfl, rfl⟩
  · exact ⟨_, rfl, rfl, rfl, rfl, rfl, rfl, rfl, rfl⟩

theorem process_data_snoc (chip : ChipState) (vs : List Nat) (v : Nat) :
    process_data chip (vs ++ [v]) = process_data_sample (process_data chip vs) v := by
  simp [process_data, List.foldl_append]

/-- Row-major closed form of the cursor (swap bit clear). -/
theorem cursor_row_major (chip : ChipState)
    (hsd : chip.scanning_direction &&& 0x20 = 0)
    (hc : chip.column_start ≤ chip.column_end) (hce : chip.column_end < 4294967295)
    (hp : chip.page_start ≤ chip.page_end) (hpe : chip.page_end < 4294967295)
    (hac : chip.active_column = chip.column_start) (hap : chip.active_page = chip.page_start)
    (samples : List Nat) :
    (process_data chip samples).active_column
      = chip.column_start + samples.length % (chip.column_end - chip.column_start + 1) ∧
    (process_data chip samples).active_page
      = chip.page_start + samples.length / (chip.column_end - chip.column_start + 1)
          % (chip.page_end - chip.page_start + 1) := by
  induction samples using List.reverseRecOn with
  | nil => simp [process_data, hac, hap]
  | append_singleton vs v ih =>
    obtain ⟨ihc, ihp⟩ := ih
    have fr := process_data_frame vs chip
    unfold data_frame at fr
    obtain ⟨-, -, -, -, -, -, -, -, -, -, -, f12, f13, f14, f15, f16⟩ := fr
    obtain ⟨s1, e, g1, g2, g3, g4, g5, g6, g7⟩ :=
      process_data_sample_cursor (process_data chip vs) v
    have hW : 0 < chip.column_end - chip.column_start + 1 := by omega
    have hH : 0 < chip.page_end - chip.page_start + 1 := by omega
    have hma := Nat.mod_lt vs.length hW
    have hmb := Nat.mod_lt (vs.length / (chip.column_end - chip.column_start + 1)) hH
    have step := advance_cursor_row s1
      (vs.length % (chip.column_end - chip.column_start + 1))
      (vs.length / (chip.column_end - chip.column_start + 1)
        % (chip.page_end - chip.page_start + 1))
      (by rw [g1, f12]; exact hsd) (by rw [g3, f14]; exact hce) (by rw [g5, f16]; exact hpe)
      (by rw [g6, g2, f13]; exact ihc) (by rw [g2, g3, f13, f14]; omega)
      (by rw [g7, g4, f15]; exact ihp) (by rw [g4, g5, f15, f16]; omega)
    rw [process_data_snoc, e, step.1, step.2, g2, g3, g4, g5, f13, f14, f15, f16,
      List.length_append, List.length_singleton]
    rcases succ_mod_cases vs.length _ hW with ⟨c1, c2, c3⟩ | ⟨c1, c2, c3⟩
    · rw [c2, c3]
      have : chip.column_start + vs.length % (chip.column_end - chip.column_start + 1) + 1
          ≤ chip.column_end := by omega
      simp only [this, if_true, and_true]
      omega
    · rw [c2, c3]
      have : ¬ chip.column_start + vs.length % (chip.column_end - chip.column_start + 1) + 1
          ≤ chip.column_end := by omega
      simp only [this, if_false, Nat.add_zero, true_and]
      rcases succ_mod_cases (vs.length / (chip.column_end - chip.column_start + 1)) _ hH
        with ⟨d1, d2, d3⟩ | ⟨d1, d2, d3⟩
      · rw [d2]
        have : chip.page_start + vs.length / (chip.column_end - chip.column_start + 1)
            % (chip.page_end - chip.page_start + 1) + 1 ≤ chip.page_end := by omega
        simp only [this, if_true]
        omega
      · rw [d2]
        have : ¬ chip.page_start + vs.length / (chip.column_end - chip.column_start + 1)
            % (chip.page_end - chip.page_start + 1) + 1 ≤ chip.page_end := by omega
        simp only [this, if_false, Nat.add_zero]

/-- Column-major closed form of the cursor (swap bit set). -/
theorem cursor_column_major (chip : ChipState)
    (hsd : chip.scanning_direction &&& 0x20 ≠ 0)
    (hc : chip.column_start ≤ chip.column_end) (hce : chip.column_end < 4294967295)
    (hp : chip.page_start ≤ chip.page_end) (hpe : chip.page_end < 4294967295)
    (hac : chip.active_column = chip.column_start) (hap : chip.active_page = chip.page_start)
    (samples : List Nat) :
    (process_data chip samples).active_column
      = chip.column_start + samples.length / (chip.page_end - chip.page_start + 1)
          % (chip.column_end - chip.column_start + 1) ∧
    (process_data chip samples).active_page
      = chip.page_start + samples.length % (chip.page_end - chip.page_start + 1) := by
  induction samples using List.reverseRecOn with
  | nil => simp [process_data, hac, hap]
  | append_singleton vs v ih =>
    obtain ⟨ihc, ihp⟩ := ih
    have fr := process_data_frame vs chip
    unfold data_frame at fr
    obtain ⟨-, -, -, -, -, -, -, -, -, -, -, f12, f13, f14, f15, f16⟩ := fr
    obtain ⟨s1, e, g1, g2, g3, g4, g5, g6, g7⟩ :=
      process_data_sample_cursor (process_data chip vs) v
    have hW : 0 < chip.column_end - chip.column_start + 1 := by omega
    have hH : 0 < chip.page_end - chip.page_start + 1 := by omega
    have hmb := Nat.mod_lt vs.length hH
    have hma := Nat.mod_lt (vs.length / (chip.page_end - chip.page_start + 1)) hW
    have step := advance_cursor_column s1
      (vs.length / (chip.page_end - chip.page_start + 1)
        % (chip.column_end - chip.column_start + 1))
      (vs.length % (chip.page_end - chip.page_start + 1))
      (by rw [g1, f12]; exact hsd) (by rw [g3, f14]; exact hce) (by rw [g5, f16]; exact hpe)
      (by rw [g6, g2, f13]; exact ihc) (by rw [g2, g3, f13, f14]; omega)
      (by rw [g7, g4, f15]; exact ihp) (by rw [g4, g5, f15, f16]; omega)
    rw [process_data_snoc, e, step.1, step.2, g2, g3, g4, g5, f13, f14, f15, f16,
      List.length_append, List.length_singleton]
    rcases succ_mod_cases vs.length _ hH with ⟨c1, c2, c3⟩ | ⟨c1, c2, c3⟩
    · rw [c2, c3]
      have : chip.page_start + vs.length % (chip.page_end - chip.page_start + 1) + 1
          ≤ chip.page_end := by omega
      simp only [this, if_true, true_and]
      omega
    · rw [c2, c3]
      have : ¬ chip.page_start + vs.length % (chip.page_end - chip.page_start + 1) + 1
          ≤ chip.page_end := by omega
      simp only [this, if_false, Nat.add_zero, and_true]
      rcases succ_mod_cases (vs.length / (chip.page_end - chip.page_start + 1)) _ hW
        with ⟨d1, d2, d3⟩ | ⟨d1, d2, d3⟩
      · rw [d2]
        have : chip.column_start + vs.length / (chip.page_end - chip.page_start + 1)
            % (chip.column_end - chip.column_start + 1) + 1 ≤ chip.column_end := by omega
        simp only [this, if_true]
        omega
      · rw [d2]
        have : ¬ chip.column_start + vs.length / (chip.page_end - chip.page_start + 1)
            % (chip.column_end - chip.column_start + 1) + 1 ≤ chip.column_end := by omega
        simp only [this, if_false, Nat.add_zero]

theorem origin_iff (W H k : Nat) (hW : 0 < W) : (k % W = 0 ∧ k / W % H = 0) ↔ W * H ∣ k := by
  constructor
  · rintro ⟨h1, h2⟩
    obtain ⟨q, hq⟩ := Nat.dvd_of_mod_eq_zero h1
    subst hq
    rw [Nat.mul_div_cancel_left q hW] at h2
    exact Nat.mul_dvd_mul_left W (Nat.dvd_of_mod_eq_zero h2)
  · rintro ⟨t, ht⟩
    subst ht
    rw [Nat.mul_assoc, Nat.mul_mod_right, Nat.mul_div_cancel_left _ hW, Nat.mul_mod_right]
    exact ⟨rfl, rfl⟩

theorem visit_index (W H a b : Nat) (ha : a < W) (hb : b < H) :
    b * W + a < W * H ∧ (b * W + a) % W = a ∧ (b * W + a) / W % H = b ∧
    ∀ j, j < W * H → j % W = a → j / W % H = b → j = b * W + a := by
  have hW : 0 < W := by omega
  have h1 : b * W + a < W * H := by
    have : (b + 1) * W ≤ H * W := Nat.mul_le_mul_right W hb
    rw [Nat.add_mul, Nat.one_mul] at this
    rw [Nat.mul_comm W H]
    omega
  have h2 : (b * W + a) % W = a := by
    rw [Nat.add_comm, Nat.add_mul_mod_self_right, Nat.mod_eq_of_lt ha]
  have h3 : (b * W + a) / W = b := by
    rw [Nat.add_comm, Nat.add_mul_div_right _ _ hW, Nat.div_eq_of_lt ha, Nat.zero_add]
  refine ⟨h1, h2, by rw [h3, Nat.mod_eq_of_lt hb], ?_⟩
  intro j hj hja hjb
  have hq : j / W < H := by
    rw [Nat.div_lt_iff_lt_mul hW, Nat.mul_comm]; exact hj
  rw [Nat.mod_eq_of_lt hq] at hjb
  have := Nat.div_add_mod j W
  rw [hja, hjb, Nat.mul_comm] at this
  exact this.symm

/-- C8: on a window with `column_start ≤ column_end`, `page_start ≤ page_end`,
both ends below `2^32 - 1`, `W = column_end - column_start + 1`,
`H = page_end - page_start + 1`, starting with the cursor at
`(column_start, page_start)`: after `process_data` has processed `k` samples of
any value the cursor is `(column_start + k % W, page_start + k / W % H)` with
the swap bit clear and `(column_start + k / H % W, page_start + k % H)` with it
set.  The cursor is back at `(column_start, page_start)` exactly when `W * H`
divides `k`, and every column/page pair of the window is the cursor after
exactly one sample count below `W * H`. -/
theorem cursor_after_samples (chip : ChipState)
    (hc : chip.column_start ≤ chip.column_end) (hce : chip.column_end < 4294967295)
    (hp : chip.page_start ≤ chip.page_end) (hpe : chip.page_end < 4294967295)
    (hac : chip.active_column = chip.column_start) (hap : chip.active_page = chip.page_start)
    (samples : List Nat) :
    (chip.scanning_direction &&& 0x20 = 0 →
      (process_data chip samples).active_column
        = chip.column_start + samples.length % (chip.column_end - chip.column_start + 1) ∧
      (process_data chip samples).active_page
        = chip.page_start + samples.length / (chip.column_end - chip.column_start + 1)
            % (chip.page_end - chip.page_start + 1)) ∧
    (chip.scanning_direction &&& 0x20 ≠ 0 →
      (process_data chip samples).active_column
        = chip.column_start + samples.length / (chip.page_end - chip.page_start + 1)
            % (chip.column_end - chip.column_start + 1) ∧
      (process_data chip samples).active_page
        = chip.page_start + samples.length % (chip.page_end - chip.page_start + 1)) ∧
    (((process_data chip samples).active_column = chip.column_start ∧
        (process_data chip samples).active_page = chip.page_start) ↔
      (chip.column_end - chip.column_start + 1) * (chip.page_end - chip.page_start + 1)
        ∣ samples.length) ∧
    (∀ c p, chip.column_start ≤ c → c ≤ chip.column_end →
      chip.page_start ≤ p → p ≤ chip.page_end →
      ∃ j, j < (chip.column_end - chip.column_start + 1) * (chip.page_end - chip.page_start + 1) ∧
        (∀ vs : List Nat, vs.length = j →
          (process_data chip vs).active_column = c ∧ (process_data chip vs).active_page = p) ∧
        (∀ vs : List Nat,
          vs.length
            < (chip.column_end - chip.column_start + 1) * (chip.page_end - chip.page_start + 1) →
          (process_data chip vs).active_column = c → (process_data chip vs).active_page = p →
          vs.length = j)) := by
  have hW : 0 < chip.column_end - chip.column_start + 1 := by omega
  have hH : 0 < chip.page_end - chip.page_start + 1 := by omega
  by_cases hsd : chip.scanning_direction &&& 0x20 = 0
  · have cf := cursor_row_major chip hsd hc hce hp hpe hac hap
    refine ⟨fun _ => cf samples, fun h => absurd hsd h, ?_, ?_⟩
    · rw [(cf samples).1, (cf samples).2, ← origin_iff _ _ _ hW]
      constructor
      · rintro ⟨h1, h2⟩; exact ⟨by omega, by omega⟩
      · rintro ⟨h1, h2⟩; exact ⟨by omega, by omega⟩
    · intro c p hc1 hc2 hp1 hp2
      obtain ⟨v1, v2, v3, v4⟩ := visit_index (chip.column_end - chip.column_start + 1)
        (chip.page_end - chip.page_start + 1) (c - chip.column_start) (p - chip.page_start)
        (by omega) (by omega)
      refine ⟨(p - chip.page_start) * (chip.column_end - chip.column_start + 1)
        + (c - chip.column_start), v1, ?_, ?_⟩
      · intro vs hvs
        rw [(cf vs).1, (cf vs).2, hvs, v2, v3]
        exact ⟨by omega, by omega⟩
      · intro vs hlt e1 e2
        rw [(cf vs).1] at e1
        rw [(cf vs).2] at e2
        exact v4 vs.length hlt (by omega) (by omega)
  · have cf := cursor_column_major chip hsd hc hce hp hpe hac hap
    refine ⟨fun h => absurd h hsd, fun _ => cf samples, ?_, ?_⟩
    · rw [(cf samples).1, (cf samples).2, Nat.mul_comm, ← origin_iff _ _ _ hH]
      constructor
      · rintro ⟨h1, h2⟩; exact ⟨by omega, by omega⟩
      · rintro ⟨h1, h2⟩; exact ⟨by omega, by omega⟩
    · intro c p hc1 hc2 hp1 hp2
      obtain ⟨v1, v2, v3, v4⟩ := visit_index (chip.page_end - chip.page_start + 1)
        (chip.column_end - chip.column_start + 1) (p - chip.page_start) (c - chip.column_start)
        (by omega) (by omega)
      rw [Nat.mul_comm (chip.page_end - chip.page_start + 1)
        (chip.column_end - chip.column_start + 1)] at v1
      refine ⟨(c - chip.column_start) * (chip.page_end - chip.page_start + 1)
        + (p - chip.page_start), v1, ?_, ?_⟩
      · intro vs hvs
        rw [(cf vs).1, (cf vs).2, hvs, v2, v3]
        exact ⟨by omega, by omega⟩
      · intro vs hlt e1 e2
        rw [(cf vs).1] at e1
        rw [(cf vs).2] at e2
        rw [Nat.mul_comm] at hlt
        exact v4 vs.length hlt (by omega) (by omega)

/-- Witness of C8: three samples on the freshly reset 240x240 panel. -/
theorem cursor_after_samples_witness :
    (process_data panel240 [1, 2, 3]).active_column
      = panel240.column_start
        + [1, 2, 3].length % (panel240.column_end - panel240.column_start + 1) ∧
    (process_data panel240 [1, 2, 3]).active_page
      = panel240.page_start
        + [1, 2, 3].length / (panel240.column_end - panel240.column_start + 1)
          % (panel240.page_end - panel240.page_start + 1) :=
  (cursor_after_samples panel240 (by decide) (by decide) (by decide) (by decide)
    (by decide) (by decide) [1, 2, 3]).1 (by decide)

/-! ## Signal lines: reset and chip select -/

theorem chip_pin_change_rst_low (s : ChipState) :
    chip_pin_change s Pin.rst LOW = chip_reset s := by
  simp [chip_pin_change]

theorem chip_pin_change_cs_low (s : ChipState) :
    chip_pin_change s Pin.cs LOW = { s with command_size := 0, command_index := 0 } := by
  simp [chip_pin_change]

/-- C11 (as amended): for every chip state, the reset operation (`chip_reset`,
which is what the reset line going low runs) clears `ram_write` and sets the
addressing window to `column_start = page_start = 0`,
`column_end = page_end = 239` and the cursor to (0, 0), whatever `width` and
`height` are; on a panel 240 wide (240 high) `column_end` (`page_end`) is
`width - 1` (`height - 1`).  It leaves `scanning_direction`, `width`, `height`,
`radius` and the framebuffer unchanged. -/
theorem chip_reset_effect (chip : ChipState) :
    chip_pin_change chip Pin.rst LOW = chip_reset chip ∧
    (chip_reset chip).ram_write = false ∧
    (chip_reset chip).column_start = 0 ∧ (chip_reset chip).page_start = 0 ∧
    (chip_reset chip).column_end = 239 ∧ (chip_reset chip).page_end = 239 ∧
    (chip_reset chip).active_column = 0 ∧ (chip_reset chip).active_page = 0 ∧
    (chip_reset chip).scanning_direction = chip.scanning_direction ∧
    (chip_reset chip).width = chip.width ∧ (chip_reset chip).height = chip.height ∧
    (chip_reset chip).radius = chip.radius ∧
    (chip_reset chip).framebuffer = chip.framebuffer ∧
    (chip.width = 240 → (chip_reset chip).column_end = chip.width - 1) ∧
    (chip.height = 240 → (chip_reset chip).page_end = chip.height - 1) := by
  refine ⟨chip_pin_change_rst_low chip, rfl, rfl, rfl, rfl, rfl, rfl, rfl, rfl, rfl, rfl, rfl,
    rfl, ?_, ?_⟩
  · intro h; rw [h]; rfl
  · intro h; rw [h]; rfl

/-- Witness of C11: the 240x240 panel. -/
theorem chip_reset_effect_witness :
    panel240.width = 240 ∧ (chip_reset panel240).column_end = panel240.width - 1 :=
  ⟨by decide, (chip_reset_effect panel240).2.2.2.2.2.2.2.2.2.2.2.2.2.1 (by decide)⟩

/-- Counterexample to C11 as stated: on a 320x240 panel `chip_reset` leaves
`column_end = 239`, not `width - 1 = 319`. -/
theorem chip_reset_counterexample :
    (chip_reset panel320).column_end = 239 ∧ panel320.width - 1 = 319 ∧
    (chip_reset panel320).column_end ≠ panel320.width - 1 := by
  decide

theorem chip_spi_done_dropped (s : ChipState) (b : List Nat) (hm : s.mode = MODE_DATA)
    (hr : s.ram_write = false) (hd : s.command_size ≤ s.command_index) :
    chip_spi_done s b = some s := by
  unfold chip_spi_done
  by_cases hb : b.length = 0
  · simp [hb]
  · simp [hb, hm, hr, args_done b s hd]

theorem deliver_dropped : ∀ (bufs : List (List Nat)) (s : ChipState), s.mode = MODE_DATA →
    s.ram_write = false → s.command_size ≤ s.command_index → deliver s bufs = some s := by
  intro bufs
  induction bufs with
  | nil => intro s _ _ _; simp [deliver]
  | cons b rest ih =>
    intro s hm hr hd
    rw [deliver_cons, chip_spi_done_dropped s b hm hr hd]
    exact ih s hm hr hd

/-- C13: a chip-select assertion (`chip_pin_change` on the CS pin going low)
sets `command_size` and `command_index` to 0 and leaves the column and page
start, end and cursor, `scanning_direction` and `ram_write` unchanged; in data
mode with `ram_write` false every buffer delivered next leaves the state as it
is: no byte is stored and nothing is dispatched. -/
theorem chip_select_assertion (chip : ChipState) (bufs : List (List Nat)) :
    (chip_pin_change chip Pin.cs LOW).command_size = 0 ∧
    (chip_pin_change chip Pin.cs LOW).command_index = 0 ∧
    (chip_pin_change chip Pin.cs LOW).column_start = chip.column_start ∧
    (chip_pin_change chip Pin.cs LOW).column_end = chip.column_end ∧
    (chip_pin_change chip Pin.cs LOW).page_start = chip.page_start ∧
    (chip_pin_change chip Pin.cs LOW).page_end = chip.page_end ∧
    (chip_pin_change chip Pin.cs LOW).active_column = chip.active_column ∧
    (chip_pin_change chip Pin.cs LOW).active_page = chip.active_page ∧
    (chip_pin_change chip Pin.cs LOW).scanning_direction = chip.scanning_direction ∧
    (chip_pin_change chip Pin.cs LOW).ram_write = chip.ram_write ∧
    (chip.mode = MODE_DATA → chip.ram_write = false →
      deliver (chip_pin_change chip Pin.cs LOW) bufs = some (chip_pin_change chip Pin.cs LOW)) := by
  rw [chip_pin_change_cs_low]
  refine ⟨rfl, rfl, rfl, rfl, rfl, rfl, rfl, rfl, rfl, rfl, ?_⟩
  intro hm hr
  exact deliver_dropped bufs _ hm hr (le_refl _)


/-- Witness of C13: chip-select asserted in the middle of the arguments of
column-address-set. -/
theorem chip_select_assertion_witness :
    partial_caset.mode = MODE_DATA ∧ partial_caset.ram_write = false ∧
    deliver (chip_pin_change partial_caset Pin.cs LOW) [[0x00, 0x20]]
      = some (chip_pin_change partial_caset Pin.cs LOW) :=
  ⟨by decide, by decide,
    (chip_select_assertion partial_caset [[0x00, 0x20]]).2.2.2.2.2.2.2.2.2.2
      (by decide) (by decide)⟩

/-- C12 (evaluation of the code): the reset handling leaves `command_code`,
`command_size`, `command_index`, `command_buf` and `mode` unchanged.  On the
240x240 panel, column-address-set with argument bytes `0x00, 0x10` accumulated,
then the reset line going low, then the data-mode bytes `0x00, 0x20`: the two
bytes are appended and column-address-set is dispatched, giving
`column_start = 16`, `column_end = 32`. -/
theorem reset_keeps_accumulation (chip : ChipState) :
    (chip_pin_change chip Pin.rst LOW).command_code = chip.command_code ∧
    (chip_pin_change chip Pin.rst LOW).command_size = chip.command_size ∧
    (chip_pin_change chip Pin.rst LOW).command_index = chip.command_index ∧
    (chip_pin_change chip Pin.rst LOW).command_buf = chip.command_buf ∧
    (chip_pin_change chip Pin.rst LOW).mode = chip.mode ∧
    ((chip_spi_done (chip_pin_change (process_command panel240 [0x2A]) Pin.dc HIGH)
        [0x00, 0x10]).bind
      (fun s => chip_spi_done (chip_pin_change s Pin.rst LOW) [0x00, 0x20])).map
      (fun s => (s.executed.map Prod.fst, s.command_index, s.column_start, s.column_end))
      = some ([0x2A], 4, 16, 32) := by
  rw [chip_pin_change_rst_low]
  exact ⟨rfl, rfl, rfl, rfl, rfl, by decide⟩

/-! ## Command Dispatcher: frame and diagnostic branch -/

theorem execute_command_other (chip : ChipState)
    (h1 : chip.command_code ≠ CMD_RAMWR) (h2 : chip.command_code ≠ CMD_MADCTL)
    (h3 : chip.command_code ≠ CMD_CASET) (h4 : chip.command_code ≠ CMD_PASET) :
    with_logs_of (execute_command chip) chip = chip := by
  unfold with_logs_of execute_command
  simp only [h1, h2, h3, h4, or_self, if_false]
  split_ifs <;> rfl

theorem execute_command_ramwr (chip : ChipState) (h : chip.command_code = CMD_RAMWR) :
    with_logs_of (execute_command chip) chip = { chip with ram_write := true } := by
  unfold with_logs_of execute_command
  simp [h]

theorem execute_command_madctl (chip : ChipState) (h : chip.command_code = CMD_MADCTL) :
    with_logs_of (execute_command chip) chip
      = { chip with scanning_direction := chip.command_buf 0 &&& 0xe0 } := by
  unfold with_logs_of execute_command
  simp [h]

/-- C18 (as amended): apart from the two logs kept outside `chip_state_t`,
`execute_command` returns the state unchanged for every opcode other than
memory-write, orientation-control, column-address-set and page-address-set;
for memory-write it changes only `ram_write`, to true, and a call that turns
`ram_write` from false to true is a memory-write; for orientation-control it
changes only `scanning_direction`, to `command_buf[0] AND 0xE0`.  Two argument
bytes `b0`, `b1` with the same top three bits give the same
`scanning_direction`, and the two resulting states are equal in every field
except the slot `command_buf[0]`, which holds the byte as it was received and
is not written by `execute_command`. -/
theorem dispatcher_frame (chip : ChipState) (b0 b1 : Nat) :
    (chip.command_code ≠ CMD_RAMWR → chip.command_code ≠ CMD_MADCTL →
      chip.command_code ≠ CMD_CASET → chip.command_code ≠ CMD_PASET →
      with_logs_of (execute_command chip) chip = chip) ∧
    (chip.command_code = CMD_RAMWR →
      with_logs_of (execute_command chip) chip = { chip with ram_write := true }) ∧
    (chip.ram_write = false → (execute_command chip).ram_write = true →
      chip.command_code = CMD_RAMWR) ∧
    (chip.command_code = CMD_MADCTL →
      with_logs_of (execute_command chip) chip
        = { chip with scanning_direction := chip.command_buf 0 &&& 0xE0 }) ∧
    (chip.command_code = CMD_MADCTL → b0 &&& 0xE0 = b1 &&& 0xE0 →
      (execute_command { chip with command_buf := Function.update chip.command_buf 0 b0 }).scanning_direction
        = (execute_command { chip with command_buf := Function.update chip.command_buf 0 b1 }).scanning_direction ∧
      with_logs_of
          (execute_command { chip with command_buf := Function.update chip.command_buf 0 b1 }) chip
        = { with_logs_of
              (execute_command { chip with command_buf := Function.update chip.command_buf 0 b0 })
              chip
            with command_buf := Function.update chip.command_buf 0 b1 }) := by
  refine ⟨execute_command_other chip, execute_command_ramwr chip, ?_,
    execute_command_madctl chip, ?_⟩
  · intro h0 h1
    rw [execute_command_ram_write, h0] at h1
    simpa using h1
  · intro hc hb
    have e0 := execute_command_madctl
      { chip with command_buf := Function.update chip.command_buf 0 b0 } hc
    have e1 := execute_command_madctl
      { chip with command_buf := Function.update chip.command_buf 0 b1 } hc
    have s0 : (execute_command
        { chip with command_buf := Function.update chip.command_buf 0 b0 }).scanning_direction
        = b0 &&& 0xE0 := by
      simp [execute_command, hc]
    have s1 : (execute_command
        { chip with command_buf := Function.update chip.command_buf 0 b1 }).scanning_direction
        = b1 &&& 0xE0 := by
      simp [execute_command, hc]
    refine ⟨by rw [s0, s1, hb], ?_⟩
    have l0 : with_logs_of (execute_command
        { chip with command_buf := Function.update chip.command_buf 0 b0 }) chip
        = { chip with command_buf := Function.update chip.command_buf 0 b0,
                      scanning_direction := b0 &&& 0xE0 } := by
      have := e0
      simp only [with_logs_of, Function.update_same] at this ⊢
      exact this
    have l1 : with_logs_of (execute_command
        { chip with command_buf := Function.update chip.command_buf 0 b1 }) chip
        = { chip with command_buf := Function.update chip.command_buf 0 b1,
                      scanning_direction := b1 &&& 0xE0 } := by
      have := e1
      simp only [with_logs_of, Function.update_same] at this ⊢
      exact this
    rw [l0, l1, hb]

/-- Counterexample to C18 as stated: the orientation bytes 0xA0 and 0xA5
agree on their top three bits and give the same `scanning_direction` 0xA0, but
the two states after `execute_command` are not the same: `command_buf[0]` is
0xA0 in one and 0xA5 in the other.  The same holds when the command is issued
through the handlers. -/
theorem dispatcher_frame_counterexample :
    (0xA0 : Nat) &&& 0xE0 = 0xA5 &&& 0xE0 ∧
    (execute_command
      { madctl_pending with
        command_buf := Function.update madctl_pending.command_buf 0 0xA0 }).command_buf 0 = 0xA0 ∧
    (execute_command
      { madctl_pending with
        command_buf := Function.update madctl_pending.command_buf 0 0xA5 }).command_buf 0 = 0xA5 ∧
    execute_command
        { madctl_pending with command_buf := Function.update madctl_pending.command_buf 0 0xA0 }
      ≠ execute_command
        { madctl_pending with command_buf := Function.update madctl_pending.command_buf 0 0xA5 } ∧
    (issue panel240 (.madctl 0xA0)).map (fun s => (s.scanning_direction, s.command_buf 0))
      = some (0xA0, 0xA0) ∧
    (issue panel240 (.madctl 0xA5)).map (fun s => (s.scanning_direction, s.command_buf 0))
      = some (0xA0, 0xA5) := by
  refine ⟨by decide, by decide, by decide, ?_, by decide, by decide⟩
  intro h
  exact absurd (congrArg (fun s => s.command_buf 0) h) (by decide)

/-- Witness of C18: orientation bytes 0xA0 and 0xA5 on the 240x240 panel. -/
theorem dispatcher_frame_witness :
    madctl_pending.command_code = CMD_MADCTL ∧ (0xA0 : Nat) &&& 0xE0 = 0xA5 &&& 0xE0 ∧
    (execute_command
        { madctl_pending with
          command_buf := Function.update madctl_pending.command_buf 0 0xA0 }).scanning_direction
      = (execute_command
        { madctl_pending with
          command_buf := Function.update madctl_pending.command_buf 0 0xA5 }).scanning_direction :=
  ⟨by decide, by decide,
    ((dispatcher_frame madctl_pending 0xA0 0xA5).2.2.2.2 (by decide) (by decide)).1⟩

/-! ## Cursor and window invariants of the data pipeline -/

theorem advance_cursor_in_window (s : ChipState)
    (hce : s.column_end < 4294967295) (hpe : s.page_end < 4294967295)
    (h : cursor_in_window s) :
    cursor_in_window (advance_cursor s) ∧
    (advance_cursor s).column_start = s.column_start ∧
    (advance_cursor s).column_end = s.column_end ∧
    (advance_cursor s).page_start = s.page_start ∧
    (advance_cursor s).page_end = s.page_end ∧
    axis_step s.column_start s.column_end s.active_column (advance_cursor s).active_column ∧
    axis_step s.page_start s.page_end s.active_page (advance_cursor s).active_page := by
  obtain ⟨h1, h2, h3, h4⟩ := h
  have w1 : (advance_cursor s).column_start = s.column_start := by
    simp only [advance_cursor, apply_ite ChipState.column_start, ite_self]
  have w2 : (advance_cursor s).column_end = s.column_end := by
    simp only [advance_cursor, apply_ite ChipState.column_end, ite_self]
  have w3 : (advance_cursor s).page_start = s.page_start := by
    simp only [advance_cursor, apply_ite ChipState.page_start, ite_self]
  have w4 : (advance_cursor s).page_end = s.page_end := by
    simp only [advance_cursor, apply_ite ChipState.page_end, ite_self]
  have ea : s.active_column = s.column_start + (s.active_column - s.column_start) := by omega
  have eb : s.active_page = s.page_start + (s.active_page - s.page_start) := by omega
  unfold cursor_in_window axis_step
  rw [w1, w2, w3, w4]
  by_cases hsd : s.scanning_direction &&& 0x20 = 0
  · obtain ⟨c, p⟩ := advance_cursor_row s _ _ hsd hce hpe ea (by omega) eb (by omega)
    rw [c, p]
    refine ⟨?_, rfl, rfl, rfl, rfl, ?_, ?_⟩
    · split_ifs <;> omega
    · split_ifs <;> omega
    · split_ifs <;> omega
  · obtain ⟨p, c⟩ := advance_cursor_column s _ _ hsd hce hpe ea (by omega) eb (by omega)
    rw [c, p]
    refine ⟨?_, rfl, rfl, rfl, rfl, ?_, ?_⟩
    · split_ifs <;> omega
    · split_ifs <;> omega
    · split_ifs <;> omega

theorem process_data_sample_in_window (s : ChipState) (v : Nat)
    (hce : s.column_end < 4294967295) (hpe : s.page_end < 4294967295)
    (h : cursor_in_window s) :
    cursor_in_window (process_data_sample s v) ∧
    axis_step s.column_start s.column_end s.active_column
      (process_data_sample s v).active_column ∧
    axis_step s.page_start s.page_end s.active_page (process_data_sample s v).active_page := by
  obtain ⟨s1, e, -, g2, g3, g4, g5, g6, g7⟩ := process_data_sample_cursor s v
  have h1 : cursor_in_window s1 := by
    unfold cursor_in_window at h ⊢
    rw [g2, g3, g4, g5, g6, g7]; exact h
  obtain ⟨a, -, -, -, -, b, c⟩ := advance_cursor_in_window s1 (by rw [g3]; exact hce)
    (by rw [g5]; exact hpe) h1
  rw [g2, g3, g6] at b
  rw [g4, g5, g7] at c
  rw [e]
  exact ⟨a, b, c⟩

theorem process_data_in_window : ∀ (samples : List Nat) (s : ChipState),
    s.column_end < 4294967295 → s.page_end < 4294967295 → cursor_in_window s →
    cursor_in_window (process_data s samples) := by
  intro samples
  induction samples with
  | nil => intro s _ _ h; simpa [process_data] using h
  | cons v rest ih =>
    intro s hce hpe h
    have fr := process_data_sample_frame s v
    unfold data_frame at fr
    obtain ⟨-, -, -, -, -, -, -, -, -, -, -, -, -, f14, -, f16⟩ := fr
    have := ih (process_data_sample s v) (by rw [f14]; exact hce) (by rw [f16]; exact hpe)
      (process_data_sample_in_window s v hce hpe h).1
    simpa [process_data] using this

/-- Where the cursor increment cannot wrap: for every chip state with
`column_start ≤ active_column ≤ column_end`,
`page_start ≤ active_page ≤ page_end` and both ends below `2^32 - 1`, every
orientation and every list of samples, the state after `process_data` has the
same window and again has the cursor inside it.  On each single sample an axis
cursor is either unchanged, or incremented without passing the end, or, when
the increment would pass the end, set to exactly that axis's start. -/
theorem cursor_stays_in_window (chip : ChipState) (samples : List Nat) (v : Nat)
    (hce : chip.column_end < 4294967295) (hpe : chip.page_end < 4294967295)
    (hc0 : chip.column_start ≤ chip.active_column) (hc1 : chip.active_column ≤ chip.column_end)
    (hp0 : chip.page_start ≤ chip.active_page) (hp1 : chip.active_page ≤ chip.page_end) :
    ((process_data chip samples).column_start = chip.column_start ∧
      (process_data chip samples).column_end = chip.column_end ∧
      (process_data chip samples).page_start = chip.page_start ∧
      (process_data chip samples).page_end = chip.page_end) ∧
    (chip.column_start ≤ (process_data chip samples).active_column ∧
      (process_data chip samples).active_column ≤ chip.column_end ∧
      chip.page_start ≤ (process_data chip samples).active_page ∧
      (process_data chip samples).active_page ≤ chip.page_end) ∧
    ((process_data chip [v]).active_column = chip.active_column ∨
      (chip.active_column + 1 ≤ chip.column_end ∧
        (process_data chip [v]).active_column = chip.active_column + 1) ∨
      (chip.column_end < chip.active_column + 1 ∧
        (process_data chip [v]).active_column = chip.column_start)) ∧
    ((process_data chip [v]).active_page = chip.active_page ∨
      (chip.active_page + 1 ≤ chip.page_end ∧
        (process_data chip [v]).active_page = chip.active_page + 1) ∨
      (chip.page_end < chip.active_page + 1 ∧
        (process_data chip [v]).active_page = chip.page_start)) := by
  have hin : cursor_in_window chip := ⟨hc0, hc1, hp0, hp1⟩
  have fr := process_data_frame samples chip
  unfold data_frame at fr
  obtain ⟨-, -, -, -, -, -, -, -, -, -, -, -, f13, f14, f15, f16⟩ := fr
  have hall := process_data_in_window samples chip hce hpe hin
  unfold cursor_in_window at hall
  rw [f13, f14, f15, f16] at hall
  obtain ⟨-, hcol, hpage⟩ := process_data_sample_in_window chip v hce hpe hin
  exact ⟨⟨f13, f14, f15, f16⟩, hall, hcol, hpage⟩

/-- Three samples on the freshly reset 240x240 panel stay in the window. -/
theorem cursor_stays_in_window_witness :
    panel240.column_start ≤ (process_data panel240 [1, 2, 3]).active_column ∧
    (process_data panel240 [1, 2, 3]).active_column ≤ panel240.column_end ∧
    panel240.page_start ≤ (process_data panel240 [1, 2, 3]).active_page ∧
    (process_data panel240 [1, 2, 3]).active_page ≤ panel240.page_end :=
  (cursor_stays_in_window panel240 [1, 2, 3] 0 (by decide) (by decide) (by decide) (by decide)
    (by decide) (by decide)).2.1

/-- C16 (evaluation of the code), on the 240x240 panel after `chip_init`:
orientation-control 0x80, page-address-set `(0x00, 0x1F, 0x00, 0x1F)` and
column-address-set `(0, 0, 0, 0)` put `page_start`, `page_end` and the page
cursor at `31 - 32 = 2^32 - 1` and make every sample advance the page.  The
cursor is inside the window; after memory-write and one sample the page
cursor is 0, below `page_start`: `active_page++` wraps to 0, which does not
exceed `page_end`, so the reload of main.c 327-328 is not taken. -/
theorem cursor_leaves_window :
    (issue_all panel240 [.madctl 0x80, .paset 0x00 0x1F 0x00 0x1F, .caset 0 0 0 0]).map
      ChipState.window = some edge_page.window ∧
    edge_page.page_start ≤ edge_page.active_page ∧ edge_page.active_page ≤ edge_page.page_end ∧
    edge_page.column_start ≤ edge_page.active_column ∧
    edge_page.active_column ≤ edge_page.column_end ∧
    (process_data edge_page [0xF800]).active_page = 0 ∧
    (process_data edge_page [0xF800]).page_start = 4294967295 ∧
    (write_after [.madctl 0x80, .paset 0x00 0x1F 0x00 0x1F, .caset 0 0 0 0] [0x00, 0xF8]).map
      (fun s => (s.page_start, s.page_end, s.active_page))
      = some (4294967295, 4294967295, 0) := by
  decide

theorem advance_cursor_degenerate_column (s : ChipState)
    (h : s.column_end < s.column_start) (hac : s.active_column = s.column_start)
    (hlt : s.column_start < 4294967295) :
    (advance_cursor s).active_column = s.column_start := by
  have u1 : uadd s.active_column 1 = s.column_start + 1 := by
    rw [hac]; exact uadd_one _ hlt
  simp only [advance_cursor, u1, apply_ite ChipState.active_column, gt_iff_lt]
  have h1 : s.column_end < s.column_start + 1 := by omega
  simp only [h1, if_true, hac, ite_self]

theorem advance_cursor_degenerate_page (s : ChipState)
    (h : s.page_end < s.page_start) (hap : s.active_page = s.page_start)
    (hlt : s.page_start < 4294967295) :
    (advance_cursor s).active_page = s.page_start := by
  have u1 : uadd s.active_page 1 = s.page_start + 1 := by
    rw [hap]; exact uadd_one _ hlt
  simp only [advance_cursor, u1, apply_ite ChipState.active_page, gt_iff_lt]
  have h1 : s.page_end < s.page_start + 1 := by omega
  simp only [h1, if_true, hap, ite_self]

theorem process_data_degenerate_column : ∀ (samples : List Nat) (chip : ChipState),
    chip.column_end < chip.column_start → chip.active_column = chip.column_start →
    chip.column_start < 4294967295 →
    (process_data chip samples).active_column = chip.column_start := by
  intro samples
  induction samples with
  | nil => intro chip _ hac _; simpa [process_data] using hac
  | cons v rest ih =>
    intro chip h hac hlt
    obtain ⟨s1, e, -, g2, g3, -, -, g6, -⟩ := process_data_sample_cursor chip v
    have fr := process_data_sample_frame chip v
    unfold data_frame at fr
    obtain ⟨-, -, -, -, -, -, -, -, -, -, -, -, f13, f14, -, -⟩ := fr
    have hstep : (process_data_sample chip v).active_column = chip.column_start := by
      rw [e, advance_cursor_degenerate_column s1 (by rw [g2, g3]; exact h)
        (by rw [g6, g2]; exact hac) (by rw [g2]; exact hlt), g2]
    have := ih (process_data_sample chip v) (by rw [f13, f14]; exact h)
      (by rw [f13]; exact hstep) (by rw [f13]; exact hlt)
    rw [f13] at this
    simpa [process_data] using this

theorem process_data_degenerate_page : ∀ (samples : List Nat) (chip : ChipState),
    chip.page_end < chip.page_start → chip.active_page = chip.page_start →
    chip.page_start < 4294967295 →
    (process_data chip samples).active_page = chip.page_start := by
  intro samples
  induction samples with
  | nil => intro chip _ hap _; simpa [process_data] using hap
  | cons v rest ih =>
    intro chip h hap hlt
    obtain ⟨s1, e, -, -, -, g4, g5, -, g7⟩ := process_data_sample_cursor chip v
    have fr := process_data_sample_frame chip v
    unfold data_frame at fr
    obtain ⟨-, -, -, -, -, -, -, -, -, -, -, -, -, -, f15, f16⟩ := fr
    have hstep : (process_data_sample chip v).active_page = chip.page_start := by
      rw [e, advance_cursor_degenerate_page s1 (by rw [g4, g5]; exact h)
        (by rw [g7, g4]; exact hap) (by rw [g4]; exact hlt), g4]
    have := ih (process_data_sample chip v) (by rw [f15, f16]; exact h)
      (by rw [f15]; exact hstep) (by rw [f15]; exact hlt)
    rw [f15] at this
    simpa [process_data] using this

/-- Where the cursor increment cannot wrap: a window axis with start above end
is stored as given (no validation), and for every chip state in which an axis
has `start > end`, `start` below `2^32 - 1` and its cursor equal to `start`,
for every orientation and every list of samples `process_data` returns and
the cursor on that axis is again equal to `start`. -/
theorem degenerate_axis (chip : ChipState) (samples : List Nat) :
    (chip.column_end < chip.column_start → chip.active_column = chip.column_start →
      chip.column_start < 4294967295 →
      (process_data chip samples).active_column = chip.column_start) ∧
    (chip.page_end < chip.page_start → chip.active_page = chip.page_start →
      chip.page_start < 4294967295 →
      (process_data chip samples).active_page = chip.page_start) ∧
    (issue_all panel240 [.caset 0x00 0x05 0x00 0x03]).map ChipState.window
      = some inverted_column.window :=
  ⟨process_data_degenerate_column samples chip, process_data_degenerate_page samples chip,
    by decide⟩

/-- Column window 5..3 on the 240x240 panel: after three samples the column
cursor is again 5. -/
theorem degenerate_axis_witness :
    inverted_column.column_end < inverted_column.column_start ∧
    (process_data inverted_column [1, 2, 3]).active_column = inverted_column.column_start :=
  ⟨by decide,
    (degenerate_axis inverted_column [1, 2, 3]).1 (by decide) (by decide) (by decide)⟩

/-- C19 (evaluation of the code), on the 240x240 panel after `chip_init`:
orientation-control 0x80, page-address-set `(0x00, 0x1F, 0x00, 0x20)` and
column-address-set `(0, 0, 0, 0)` give `page_start = 2^32 - 1` above
`page_end = 0`, with the page cursor at `page_start`, and make every sample
advance the page.  After memory-write and one sample the page cursor is 0,
not `page_start`: `active_page++` wraps to 0, which does not exceed
`page_end`, so the reload of main.c 327-328 is not taken. -/
theorem degenerate_cursor_not_reloaded :
    (issue_all panel240 [.madctl 0x80, .paset 0x00 0x1F 0x00 0x20, .caset 0 0 0 0]).map
      ChipState.window = some inverted_page.window ∧
    inverted_page.page_end < inverted_page.page_start ∧
    inverted_page.active_page = inverted_page.page_start ∧
    (process_data inverted_page [0xF800]).active_page = 0 ∧
    (process_data inverted_page [0xF800]).page_start = 4294967295 ∧
    (write_after [.madctl 0x80, .paset 0x00 0x1F 0x00 0x20, .caset 0 0 0 0] [0x00, 0xF8]).map
      (fun s => (s.page_start, s.page_end, s.active_page)) = some (4294967295, 0, 0) := by
  decide

/-! ## Invariant of the command accumulator -/

theorem execute_command_invariant (s : ChipState) (h : command_invariant s) :
    command_invariant (execute_command s) := by
  unfold command_invariant at h ⊢
  rw [execute_command_command_index, execute_command_command_size]
  exact h

theorem process_command_byte_invariant (s : ChipState) (b : Nat) :
    command_invariant (process_command_byte s b) := by
  have h0 : command_invariant
      { s with command_code := b, command_size := command_args_size b, command_index := 0 } :=
    ⟨Nat.zero_le _, command_args_size_le b⟩
  unfold process_command_byte
  simp only []
  split_ifs
  · exact execute_command_invariant _ h0
  · exact h0

theorem foldl_process_command_byte_invariant : ∀ (buffer : List Nat) (s : ChipState),
    command_invariant s → command_invariant (buffer.foldl process_command_byte s) := by
  intro buffer
  induction buffer with
  | nil => intro s h; exact h
  | cons b rest ih =>
    intro s _
    exact ih _ (process_command_byte_invariant s b)

theorem process_command_invariant (s : ChipState) (buffer : List Nat)
    (h : command_invariant s) : command_invariant (process_command s buffer) :=
  foldl_process_command_byte_invariant buffer { s with ram_write := false } h

theorem process_command_args_byte_invariant (s : ChipState) (b : Nat)
    (h : command_invariant s) :
    ∃ s1, process_command_args_byte s b = some s1 ∧ command_invariant s1 := by
  obtain ⟨h1, h2⟩ := h
  unfold process_command_args_byte
  by_cases hidx : s.command_index < s.command_size
  · have h16 : s.command_index < 16 := by omega
    have hmod : (s.command_index + 1) % 256 = s.command_index + 1 := by omega
    have hinv : command_invariant
        { s with
          command_buf := Function.update s.command_buf ⟨s.command_index, h16⟩ b
          command_index := s.command_index + 1 } := ⟨by simp only []; omega, h2⟩
    simp only [hidx, h16, hmod, if_true, dite_true]
    split_ifs
    · exact ⟨_, rfl, execute_command_invariant _ hinv⟩
    · exact ⟨_, rfl, hinv⟩
  · exact ⟨s, by simp [hidx], h1, h2⟩

theorem process_command_args_invariant : ∀ (buffer : List Nat) (s : ChipState),
    command_invariant s →
    ∃ s1, process_command_args s buffer = some s1 ∧ command_invariant s1 := by
  intro buffer
  induction buffer with
  | nil => intro s h; exact ⟨s, by simp [process_command_args], h⟩
  | cons b rest ih =>
    intro s h
    obtain ⟨s1, e1, h1⟩ := process_command_args_byte_invariant s b h
    obtain ⟨s2, e2, h2⟩ := ih s1 h1
    exact ⟨s2, by rw [process_command_args_cons, e1]; exact e2, h2⟩

theorem process_data_invariant (s : ChipState) (samples : List Nat)
    (h : command_invariant s) : command_invariant (process_data s samples) := by
  have fr := process_data_frame samples s
  unfold data_frame at fr
  unfold command_invariant at h ⊢
  rw [fr.2.2.1, fr.2.2.2.1]
  exact h

/-- C17: the predicate `command_index ≤ command_size ≤ 16` is preserved by
`process_command`, `process_command_args`, `process_data`, `execute_command`,
a chip-select assertion and `chip_reset`, for every buffer.  Under it
`process_command_args` returns a state, that is, no store of the call falls
outside `command_buf`, and a store (made only when
`command_index < command_size`) uses an index below 16. -/
theorem command_index_invariant (chip : ChipState) (buffer samples : List Nat)
    (h : chip.command_index ≤ chip.command_size ∧ chip.command_size ≤ 16) :
    ((process_command chip buffer).command_index ≤ (process_command chip buffer).command_size ∧
      (process_command chip buffer).command_size ≤ 16) ∧
    (∃ s1, process_command_args chip buffer = some s1 ∧
      s1.command_index ≤ s1.command_size ∧ s1.command_size ≤ 16) ∧
    ((process_data chip samples).command_index ≤ (process_data chip samples).command_size ∧
      (process_data chip samples).command_size ≤ 16) ∧
    ((execute_command chip).command_index ≤ (execute_command chip).command_size ∧
      (execute_command chip).command_size ≤ 16) ∧
    ((chip_pin_change chip Pin.cs LOW).command_index
        ≤ (chip_pin_change chip Pin.cs LOW).command_size ∧
      (chip_pin_change chip Pin.cs LOW).command_size ≤ 16) ∧
    ((chip_reset chip).command_index ≤ (chip_reset chip).command_size ∧
      (chip_reset chip).command_size ≤ 16) ∧
    (chip.command_index < chip.command_size → chip.command_index < 16) := by
  refine ⟨process_command_invariant chip buffer h, process_command_args_invariant buffer chip h,
    process_data_invariant chip samples h, execute_command_invariant chip h, ?_, h, ?_⟩
  · simp [chip_pin_change]
  · intro hlt; omega

/-- Witness of C17: the panel in the middle of the arguments of
column-address-set. -/
theorem command_index_invariant_witness :
    (partial_caset.command_index ≤ partial_caset.command_size ∧
      partial_caset.command_size ≤ 16) ∧
    ∃ s1, process_command_args partial_caset [0x00, 0x20, 0x55] = some s1 ∧
      s1.command_index ≤ s1.command_size ∧ s1.command_size ≤ 16 :=
  ⟨by decide,
    (command_index_invariant partial_caset [0x00, 0x20, 0x55] [] (by decide)).2.1⟩

/-! ## Framebuffer bounds -/

/-- C20 (evaluation of the code), on the 240x240 panel after `chip_init`.
Column-address-set to column 120, page-address-set to page 240, memory-write
and one sample: the device coordinate is (120, 240), the test of the circular
mask holds with equality, and the pixel is written at byte offset 230880, past
the `240 * 240 * 4 = 230400` bytes of the panel.  With column 240 and page 120
the coordinate is (240, 120) and the write lands at offset 116160.  With column
and page 46461 the sum of squares wraps modulo `2^32` to 9266 and the write
lands at offset 44788404. -/
theorem write_outside_panel :
    (write_after [.caset 0x00 0x78 0x00 0x78, .paset 0x00 0xF0 0x00 0xF0] [0x00, 0xF8]).map
        (fun s => s.framebuffer) = some [(230880, 0xFF0000F8)] ∧
    230880 ≥ panel240.width * panel240.height * 4 ∧
    (write_after [.caset 0x00 0xF0 0x00 0xF0, .paset 0x00 0x78 0x00 0x78] [0x00, 0xF8]).map
        (fun s => s.framebuffer) = some [(116160, 0xFF0000F8)] ∧
    (write_after [.caset 0xB5 0x7D 0xB5 0x7D, .paset 0xB5 0x7D 0xB5 0x7D] [0x00, 0xF8]).map
        (fun s => s.framebuffer) = some [(44788404, 0xFF0000F8)] ∧
    (issue_all panel240 [.caset 0x00 0x78 0x00 0x78, .paset 0x00 0xF0 0x00 0xF0]).map
        (fun s => (device_x s, device_y s)) = some (120, 240) ∧
    (issue_all panel240 [.caset 0x00 0xF0 0x00 0xF0, .paset 0x00 0x78 0x00 0x78]).map
        (fun s => (device_x s, device_y s)) = some (240, 120) ∧
    (issue_all panel240 [.caset 0xB5 0x7D 0xB5 0x7D, .paset 0xB5 0x7D 0xB5 0x7D]).map
        (fun s => (device_x s, device_y s)) = some (46461, 46461) := by
  decide

end GC9A01
